import Mathlib

/-!
Verification development for the `aile` family-tree application.

The two algorithmic subsystems are embedded shallowly:

* `src/utils/colorGenerator.ts` — deterministic family colors (curated
  palette plus golden-angle HSL fallback).  JavaScript numbers are embedded
  as exact rationals (`ℚ`); every rounding boundary relevant to the first
  hundred colors is far from a float64 error, so the exact model agrees
  with the implementation.
* `src/utils/familyDetection.ts` — root discovery, breadth-first descendant
  assignment with a visited set, spouse assignment via union-id parsing,
  and the default-active-family helper.  JavaScript `Set`s and `Map`s are
  insertion ordered, so they are embedded as lists with
  append-if-absent insertion.
* the DAG relaxation layout engine (`dagRelaxation.ts`), whose
  implementation file is not part of the snapshot; it is modelled from the
  specification, with the concrete behavior pinned by the repository's
  unit tests where the two disagree.
-/

namespace Aile

/-! ### Generic helpers -/

/-- Append an element to the end of a list unless it is already present.
This mirrors insertion into a JavaScript `Set` (insertion-ordered,
duplicate-free). -/
def pushIfAbsent {α} [DecidableEq α] (l : List α) (a : α) : List α :=
  if a ∈ l then l else l ++ [a]

/-- Insertion-ordered deduplication, mirroring `new Set(array)` in
JavaScript (keeps the first occurrence of each element). -/
def mkSet {α} [DecidableEq α] (l : List α) : List α :=
  l.foldl pushIfAbsent []

/-- First value bound to a key in an association list, mirroring
`Map.get` / JavaScript object indexing. -/
def assocFind {α β} [DecidableEq α] (l : List (α × β)) (k : α) : Option β :=
  (l.find? (fun p => p.1 = k)).map (·.2)

/-- Whether `pre` is a prefix of `s`, character by character
(JavaScript `String.prototype.startsWith`). -/
def leadsWithL : List Char → List Char → Bool
  | [], _ => true
  | _ :: _, [] => false
  | p :: ps, c :: cs => p = c && leadsWithL ps cs

/-- Wrapper over `String` around `leadsWithL`. -/
def leadsWith (pre s : String) : Bool :=
  leadsWithL pre.data s.data

/-! ### Color generator (`src/utils/colorGenerator.ts`) -/

/-- The ten-entry curated palette `FAMILY_COLOR_PALETTE`. -/
def FAMILY_COLOR_PALETTE : List String :=
  ["#8B5CF6", "#10B981", "#3B82F6", "#F59E0B", "#EF4444",
   "#14B8A6", "#F97316", "#EC4899", "#6366F1", "#84CC16"]

/-- JavaScript `%` on nonnegative numbers (used as `(h / 60) % 2` and
`(index * 137.5) % 360`). -/
def ratMod (a b : ℚ) : ℚ := a - b * ⌊a / b⌋

/-- JavaScript `Math.round` (round half toward positive infinity). -/
def jsRound (q : ℚ) : ℤ := ⌊q + 1 / 2⌋

/-- Uppercase hexadecimal digit, as produced by
`toString(16)` followed by `toUpperCase()`. -/
def hexDigitChar : ℕ → Char
  | 0 => '0' | 1 => '1' | 2 => '2' | 3 => '3' | 4 => '4'
  | 5 => '5' | 6 => '6' | 7 => '7' | 8 => '8' | 9 => '9'
  | 10 => 'A' | 11 => 'B' | 12 => 'C' | 13 => 'D' | 14 => 'E'
  | _ => 'F'

/-- A channel value in `[0, 255]` printed as two uppercase hex digits
(`toString(16).padStart(2, '0')` then `toUpperCase()`). -/
def byteToHex (n : ℕ) : String :=
  String.mk [hexDigitChar (n / 16 % 16), hexDigitChar (n % 16)]

/-- Embeds `hslToHex` from `colorGenerator.ts`, with JavaScript numbers embedded
as exact rationals. -/
def hslToHex (h s l : ℚ) : String :=
  let sNorm := s / 100
  let lNorm := l / 100
  let c := (1 - |2 * lNorm - 1|) * sNorm
  let x := c * (1 - |ratMod (h / 60) 2 - 1|)
  let m := lNorm - c / 2
  let rgb : ℚ × ℚ × ℚ :=
    if 0 ≤ h ∧ h < 60 then (c, x, 0)
    else if 60 ≤ h ∧ h < 120 then (x, c, 0)
    else if 120 ≤ h ∧ h < 180 then (0, c, x)
    else if 180 ≤ h ∧ h < 240 then (0, x, c)
    else if 240 ≤ h ∧ h < 300 then (x, 0, c)
    else if 300 ≤ h ∧ h < 360 then (c, 0, x)
    else (0, 0, 0)
  ("#" ++ byteToHex (jsRound ((rgb.1 + m) * 255)).toNat
      ++ byteToHex (jsRound ((rgb.2.1 + m) * 255)).toNat
      ++ byteToHex (jsRound ((rgb.2.2 + m) * 255)).toNat)

/-- Embeds `generateFamilyColor` from `colorGenerator.ts`: curated palette for
indices below ten, golden-angle HSL colors afterwards. -/
def generateFamilyColor (index : ℕ) : String :=
  if index < FAMILY_COLOR_PALETTE.length then
    FAMILY_COLOR_PALETTE.getD index ""
  else
    hslToHex (ratMod ((index : ℚ) * 137.5) 360) 70 55

/-! ### Family detection (`src/utils/familyDetection.ts`)

The file carries two revisions of the module; the one the repository's
test-suite (`tests/familyDetection.test.ts`) exercises is the first
(`assignDescendants` / `assignSpouses` / `memberToFamilies`-based
`getDefaultActiveFamilies`), embedded below.  The second revision's
patrilineal traversal (`assignDescendantsPatrilineal`) is also embedded
for the cycle-safety claim. -/

/-- The id prefix distinguishing union nodes. -/
def uPre : String := "u_"

/-- The id prefix of person/member nodes. -/
def memPre : String := "mem_"

/-- Domain attributes of a person (the fields the detector reads).
Absent/`undefined` string fields are `none`. -/
structure Member where
  name : Option String := none
  first_name : Option String := none
  last_name : Option String := none
  is_spouse : Bool := false
  gender : Option String := none
deriving DecidableEq, Repr

/-- The detector's input: the designated start/entry id, the member table
(insertion-ordered, as JavaScript object keys), and the flat edge list. -/
structure FamilyData where
  start : String
  members : List (String × Member)
  links : List (String × String)
deriving DecidableEq, Repr

/-- Mirrors `Object.keys(data.members)` (insertion order). -/
def memberKeys (d : FamilyData) : List String := d.members.map (·.1)

/-- Mirrors the indexing `data.members[id]`. -/
def memberFind (d : FamilyData) (id : String) : Option Member :=
  assocFind d.members id

/-- Embeds `getUnionsForMember`: the unions a member links into
(`member → union` edges, in edge-list order). -/
def getUnionsForMember (d : FamilyData) (memberId : String) : List String :=
  d.links.filterMap (fun p =>
    if p.1 = memberId ∧ leadsWith uPre p.2 then some p.2 else none)

/-- Embeds `getChildrenOfUnion`: the children below a union
(`union → person` edges, in edge-list order). -/
def getChildrenOfUnion (d : FamilyData) (unionId : String) : List String :=
  d.links.filterMap (fun p =>
    if p.1 = unionId ∧ ¬ leadsWith uPre p.2 then some p.2 else none)

/-- Split a character list at its last underscore that is followed by at
least one character (the greedy backtracking of `(.+)_(.+)`); the part
before the underscore may come out empty and is checked by the caller. -/
def lastSplitUS : List Char → Option (List Char × List Char)
  | [] => none
  | c :: cs =>
    match lastSplitUS cs with
    | some (a, b) => some (c :: a, b)
    | none => if c = '_' ∧ cs ≠ [] then some ([], cs) else none

/-- Leftmost match of the unanchored JavaScript regex `u_(.+)_(.+)`:
scan for `u_`, then split the remainder greedily at the last underscore
leaving both groups non-empty; on failure resume the scan one character
further. -/
def findUnionMatch : List Char → Option (List Char × List Char)
  | [] => none
  | c :: cs =>
    if c = 'u' ∧ cs.head? = some ('_') then
      match lastSplitUS cs.tail with
      | some (a, b) => if a = [] then findUnionMatch cs else some (a, b)
      | none => findUnionMatch cs
    else findUnionMatch cs

/-- Prefix a captured partner id with `mem_` unless it already starts
with it. -/
def withMemPre (id : List Char) : String :=
  if leadsWithL memPre.data id then String.mk id else memPre ++ String.mk id

/-- Embeds `parseUnionId`: recover the two partner ids from a union node id of
the shape `u_<a>_<b>`; ids that do not match yield no partners. -/
def parseUnionId (unionId : String) : List String :=
  match findUnionMatch unionId.data with
  | none => []
  | some (a, b) => [withMemPre a, withMemPre b]

/-- The set of ids that appear as the target of a `union → person` edge
(the "has a parent" set of `findRootNodes`). -/
def buildChildrenSet (links : List (String × String)) : List String :=
  links.foldl (fun acc p =>
    if leadsWith uPre p.1 ∧ ¬ leadsWith uPre p.2 then pushIfAbsent acc p.2
    else acc) []

/-- Whether the member table flags this id as a spouse (absent members
count as not flagged). -/
def isSpouseFlag (d : FamilyData) (id : String) : Bool :=
  match memberFind d id with
  | some m => m.is_spouse
  | none => false

/-- Embeds `findRootNodes`: members that are no union's child and not flagged as
spouses; when none exist but the table is non-empty, fall back to the
start id provided it is truthy and present in the table. -/
def findRootNodes (d : FamilyData) : List String :=
  let childrenSet := buildChildrenSet d.links
  let roots := (memberKeys d).filter (fun id =>
    decide (id ∉ childrenSet) && ! isSpouseFlag d id)
  if roots = [] ∧ d.members ≠ [] then
    if d.start ≠ "" ∧ (memberFind d d.start).isSome then [d.start] else []
  else roots

/-- Fuel-indexed breadth-first traversal shared by both revisions of the
descendant assignment: `kids m visited` lists the children enqueued when
`m` is first visited.  Mirrors the `while (queue.length > 0)` loop with
its visited-set guard; `none` means the fuel ran out. -/
def bfsAux (kids : String → List String → List String) :
    ℕ → List String → List String → List String → Option (List String)
  | 0, q, _, mem => if q = [] then some mem else none
  | _ + 1, [], _, mem => some mem
  | f + 1, m :: rest, visited, mem =>
    if m ∈ visited then bfsAux kids f rest visited mem
    else
      bfsAux kids f (rest ++ kids m (m :: visited)) (m :: visited)
        (pushIfAbsent mem m)

/-- Children enqueued by `assignDescendants` when visiting `m`: for every
union of `m`, every not-yet-visited child of that union. -/
def descKids (d : FamilyData) (m : String) (visited : List String) :
    List String :=
  (getUnionsForMember d m).flatMap (fun u =>
    (getChildrenOfUnion d u).filter (fun c => decide (c ∉ visited)))

/-- Embeds `isPersonFatherInUnion` (second revision): gender `E` is the father,
gender `K` is not; with unknown gender the source inspects the partner
but returns `true` on every path, so the function reduces to
"not explicitly female" for known members. -/
def isPersonFatherInUnion (d : FamilyData) (personId : String)
    (_partners : List String) : Bool :=
  match memberFind d personId with
  | none => false
  | some person =>
    if person.gender = some ("E") then true
    else if person.gender = some ("K") then false
    else true

/-- Children enqueued by `assignDescendantsPatrilineal` when visiting
`m`: as `descKids`, but only through unions where `m` counts as the
father. -/
def descKidsPatri (d : FamilyData) (m : String) (visited : List String) :
    List String :=
  (getUnionsForMember d m).flatMap (fun u =>
    if isPersonFatherInUnion d m (parseUnionId u) then
      (getChildrenOfUnion d u).filter (fun c => decide (c ∉ visited))
    else [])

/-- Fuel that (provably) suffices for either breadth-first traversal:
each visit enqueues at most `links² ` children, and at most
`links + 1` distinct ids are ever enqueued. -/
def fuelFor (d : FamilyData) : ℕ :=
  let L := d.links.length
  (L * L + 1) * (L + 2) + 2

/-- Embeds `assignDescendants`: every person reached from the root through
`person → union → child` edges, in visit order. -/
def assignDescendants (d : FamilyData) (rootMemberId : String) :
    List String :=
  (bfsAux (descKids d) (fuelFor d) [rootMemberId] [] []).getD []

/-- Embeds the `assignDescendantsPatrilineal` member set (second revision), same
traversal restricted to father-side unions. -/
def assignDescendantsPatri (d : FamilyData) (rootMemberId : String) :
    List String :=
  (bfsAux (descKidsPatri d) (fuelFor d) [rootMemberId] [] []).getD []

/-- One member's contribution in `assignSpouses`: every parsed partner of
every union the member participates in, skipping the member itself, the
placeholder `'0'`, and ids missing from the member table. -/
def addSpousesFor (d : FamilyData) (acc : List String) (m : String) :
    List String :=
  (getUnionsForMember d m).foldl (fun acc u =>
    (parseUnionId u).foldl (fun acc p =>
      if p = m ∨ p = "0" ∨ (memberFind d p).isNone then acc
      else pushIfAbsent acc p) acc) acc

/-- Embeds `assignSpouses`: iterate over a snapshot of the family's member set,
adding every admissible co-partner to the (growing) set. -/
def assignSpouses (d : FamilyData) (members : List String) : List String :=
  members.foldl (addSpousesFor d) members

/-- A detected family (derived record). -/
structure Family where
  id : String
  name : String
  color : String
  rootMemberId : String
  memberCount : ℕ
deriving DecidableEq, Repr

/-- Embeds `getFamilyName`: surname if truthy and non-blank, else full name,
else first name, else the `Unknown` placeholder. -/
def getFamilyName (m : Member) : String :=
  match m.last_name with
  | some ln =>
    if ln ≠ "" ∧ String.mk ((ln.data.dropWhile Char.isWhitespace).reverse.dropWhile Char.isWhitespace).reverse ≠ "" then
      "Family of " ++ ln
    else fullNameOf m
  | none => fullNameOf m
where
  /-- Mirrors `member.name || member.first_name || 'Unknown'`, prefixed. -/
  fullNameOf (m : Member) : String :=
    "Family of " ++
      (match m.name with
       | some n => if n = "" then firstOrUnknown m else n
       | none => firstOrUnknown m)
  firstOrUnknown (m : Member) : String :=
    match m.first_name with
    | some f => if f = "" then "Unknown" else f
    | none => "Unknown"

/-- Append `v` to the list bound to `k`, creating the binding first if
missing (`if (!map.has(k)) map.set(k, []); map.get(k).push(v)`). -/
def assocAppend (l : List (String × List String)) (k v : String) :
    List (String × List String) :=
  if (assocFind l k).isSome then
    l.map (fun p => if p.1 = k then (p.1, p.2 ++ [v]) else p)
  else l ++ [(k, [v])]

/-- Result of `detectFamilies`. -/
structure FamilyDetectionResult where
  families : List Family
  memberToFamilies : List (String × List String)
  familyColors : List (String × String)
deriving DecidableEq, Repr

/-- Embeds `detectFamilies` (first revision): seed a family per root, extend by
descendants then spouses, invert into `memberToFamilies` (family-creation
order), and project the color map. -/
def detectFamilies (d : FamilyData) : FamilyDetectionResult :=
  let roots := findRootNodes d
  if roots = [] then ⟨[], [], []⟩
  else
    let famSeeds : List Family := roots.enum.filterMap (fun p =>
      match memberFind d p.2 with
      | none => none
      | some rm =>
        some { id := "family_" ++ p.2, name := getFamilyName rm,
               color := generateFamilyColor p.1, rootMemberId := p.2,
               memberCount := 0 })
    let famSets : List (Family × List String) := famSeeds.map (fun f =>
      (f, assignSpouses d (assignDescendants d f.rootMemberId)))
    let memberToFamilies := famSets.foldl (fun acc fs =>
      fs.2.foldl (fun acc m => assocAppend acc m fs.1.id) acc) []
    let families := famSets.map (fun fs =>
      { fs.1 with memberCount := fs.2.length })
    let familyColors := families.map (fun f => (f.id, f.color))
    ⟨families, memberToFamilies, familyColors⟩

/-- Embeds `getDefaultActiveFamilies` (first revision): the current person's
family set when a truthy id with a non-empty membership list is given,
otherwise all family ids. -/
def getDefaultActiveFamilies (families : List Family)
    (memberToFamilies : List (String × List String))
    (currentNodeId : Option String) : List String :=
  match currentNodeId with
  | some id =>
    if id ≠ "" then
      match assocFind memberToFamilies id with
      | some fams =>
        if fams ≠ [] then mkSet fams else mkSet (families.map (·.id))
      | none => mkSet (families.map (·.id))
    else mkSet (families.map (·.id))
  | none => mkSet (families.map (·.id))

/-! ### Relaxation engine (`DagRelaxation`)

The implementation file `src/components/Tree/dagRelaxation.ts` is not in
the snapshot — only its unit tests are — so the engine is modelled from
the specification (§4.1), with every input/output pair pinned by the
tests reproduced exactly.  JavaScript numbers are embedded as exact
rationals; node objects mutated in place become a state list threaded
through the passes, preserving the collection's order as the mutating
original does. -/

/-- A layout node: id, mutable horizontal coordinate, fixed vertical
coordinate (generation level). -/
structure DNode where
  data : String
  x : ℚ
  y : ℚ
deriving DecidableEq, Repr

/-- Shorthand for shifting a node's horizontal coordinate. -/
def shiftX (c : ℚ) (n : DNode) : DNode := { n with x := n.x + c }

/-- Modelled from the spec: `get_gravity(node, neighbor)` is the
directional pull toward the neighbor's horizontal coordinate,
`neighbor.x - node.x` (pinned by the tests: `(0,100) ↦ 100`,
`(100,0) ↦ -100`, equal positions `↦ 0`). -/
def get_gravity (node neighbor : DNode) : ℚ := neighbor.x - node.x

/-- Modelled from the spec: `get_pressure(node, neighbor, minSpacing)` is
the signed overlap correction; zero when the gap is at least
`minSpacing`.  The sign convention is pinned by the repository's tests
(`dagRelaxation.test.ts`): a neighbor to the RIGHT closer than
`minSpacing` yields `+(minSpacing - gap)` and a neighbor to the LEFT
yields `-(minSpacing - gap)` — node at `50`, neighbor at `0`, spacing
`100` gives `-50`; node at `0`, neighbor at `50` gives `+50`. -/
def get_pressure (node neighbor : DNode) (minSpacing : ℚ) : ℚ :=
  let d := neighbor.x - node.x
  if 0 < d then (if d < minSpacing then minSpacing - d else 0)
  else if d < 0 then (if -d < minSpacing then -(minSpacing + d) else 0)
  else 0

/-- Insert into a list sorted by a rational key. -/
def insertByKey {α} (key : α → ℚ) (a : α) : List α → List α
  | [] => [a]
  | b :: l => if key a ≤ key b then a :: b :: l else b :: insertByKey key a l

/-- Insertion sort by a rational key (the deterministic
"ascending current-x order" of the spec). -/
def sortByKey {α} (key : α → ℚ) : List α → List α
  | [] => []
  | a :: l => insertByKey key a (sortByKey key l)

/-- Distinct vertical coordinates in first-appearance order: the level
grouping of the spec. -/
def levelKeys : List ℚ → List ℚ
  | [] => []
  | y :: ys => y :: levelKeys (ys.filter (fun z => decide (z ≠ y)))
termination_by l => l.length
decreasing_by
  simp only [List.length_cons]
  exact Nat.lt_succ_of_le (List.length_filter_le _ _)

/-- Pair every list element with its position, mirroring object identity
of the mutated-in-place JavaScript nodes. -/
def tagFrom {α} (k : ℕ) : List α → List (ℕ × α)
  | [] => []
  | a :: l => (k, a) :: tagFrom (k + 1) l

/-- Modelled from the spec: the forward sweep of `enforcePlacement` over
one level in ascending-x order — each node's `x` is forced to at least
`previous.x + minSpacing`, never decreased; the accumulator starts absent
(the tests note `position_x` starts at `-Infinity + node_size`), so the
first node is never moved. -/
def sweepN (s : ℚ) : Option ℚ → List (ℕ × DNode) → List (ℕ × DNode)
  | _, [] => []
  | none, p :: l => p :: sweepN s (some p.2.x) l
  | some prev, p :: l =>
    let x' := max p.2.x (prev + s)
    (p.1, { p.2 with x := x' }) :: sweepN s (some x') l

/-- One level's swept block: the tagged nodes of level `y`, sorted by
current `x`, then swept. -/
def levelBlock (s : ℚ) (tagged : List (ℕ × DNode)) (y : ℚ) :
    List (ℕ × DNode) :=
  sweepN s none (sortByKey (·.2.x) (tagged.filter (fun p => decide (p.2.y = y))))

/-- The per-level swept assignments of `enforcePlacement`: group the
tagged nodes by level, sort each level by current `x`, sweep. -/
def enforceBlocks (s : ℚ) (tagged : List (ℕ × DNode)) : List (ℕ × DNode) :=
  (levelKeys (tagged.map (·.2.y))).flatMap (levelBlock s tagged)

/-- The write-back step of `enforce_placement`: a tagged node receives
the swept coordinate recorded for its tag (its `x` is mutated, nothing
else). -/
def enfUpd (s : ℚ) (tagged : List (ℕ × DNode)) (p : ℕ × DNode) : DNode :=
  match assocFind (enforceBlocks s tagged) p.1 with
  | some n => { p.2 with x := n.x }
  | none => p.2

/-- Modelled from the spec: `enforce_placement(nodes)` — deterministic,
non-iterative sweep processing nodes in ascending current-x order within
each level, writing the corrected `x` back into each node in place (the
collection's order is preserved). -/
def enforce_placement (s : ℚ) (ns : List DNode) : List DNode :=
  (tagFrom 0 ns).map (enfUpd s (tagFrom 0 ns))

/-- Structural-neighbor nodes of `n` resolved in the current state;
missing ids contribute nothing (spec §4.1 failure semantics). -/
def gravityTargets (conn : String → List String) (state : List DNode)
    (n : DNode) : List DNode :=
  (conn n.data).filterMap (fun i => state.find? (fun m => decide (m.data = i)))

/-- Modelled from the spec: the gravity term of one pass — the pull from
`n.x` toward the average `x` of the resolved structural neighbors, zero
when there are none. -/
def gravityPull (conn : String → List String) (state : List DNode)
    (n : DNode) : ℚ :=
  let ts := gravityTargets conn state n
  if ts = [] then 0 else ((ts.map (·.x)).sum / (ts.length : ℚ)) - n.x

/-- One node's update inside a pass: pressure from the immediate left
and right neighbors in the sorted level `lvl`, gravity toward the
structural neighbors in `state`, blended with the damping constant. -/
def passBody (conn : String → List String) (s damp : ℚ)
    (state lvl : List DNode) (p : ℕ × DNode) : String × ℚ :=
  let pl : ℚ :=
    match p.1, lvl.get? (p.1 - 1) with
    | 0, _ => 0
    | _ + 1, some l => get_pressure p.2 l s
    | _ + 1, none => 0
  let pr : ℚ :=
    match lvl.get? (p.1 + 1) with
    | some r => get_pressure p.2 r s
    | none => 0
  (p.2.data, p.2.x + damp * (pl + pr + gravityPull conn state p.2))

/-- Modelled from the spec: one relaxation pass over the level `y` —
every node of the level accumulates pressure from its immediate left and
right neighbors in sorted order plus gravity toward its structural
neighbors, and receives `x + damp * (pressure + gravity)`; the damping
blend is the spec's empirically-tuned open constant. -/
def passAssigns (conn : String → List String) (s damp : ℚ)
    (state : List DNode) (y : ℚ) : List (String × ℚ) :=
  (sortByKey (·.x) (state.filter (fun n => decide (n.y = y)))).enum.map
    (passBody conn s damp state
      (sortByKey (·.x) (state.filter (fun n => decide (n.y = y)))))

/-- The write-back of one pass for a single node: only nodes of level
`y` change, and only their `x`. -/
def passUpd (y : ℚ) (assigns : List (String × ℚ)) (n : DNode) : DNode :=
  if n.y = y then
    match assocFind assigns n.data with
    | some v => { n with x := v }
    | none => n
  else n

/-- Write one pass's updates back into the state. -/
def applyPass (state : List DNode) (y : ℚ) (assigns : List (String × ℚ)) :
    List DNode :=
  state.map (passUpd y assigns)

/-- One full pass over level `y`. -/
def relaxLevelOnce (conn : String → List String) (s damp : ℚ) (y : ℚ)
    (state : List DNode) : List DNode :=
  applyPass state y (passAssigns conn s damp state y)

/-- Iterate the fixed number of passes over one level. -/
def relaxLevel (conn : String → List String) (s damp : ℚ) (y : ℚ) :
    ℕ → List DNode → List DNode
  | 0, state => state
  | p + 1, state => relaxLevel conn s damp y p (relaxLevelOnce conn s damp y state)

/-- Modelled from the spec: `run(allNodes)` — for each level (grouped by
vertical coordinate) repeat the damped pressure+gravity passes, then
invoke `enforce_placement` once over the full node set as the closing
correction pass.  `node_size.1` (the footprint width) is the minimum
spacing. -/
def run (conn : String → List String) (node_size : ℚ × ℚ) (damp : ℚ)
    (passes : ℕ) (ns : List DNode) : List DNode :=
  enforce_placement node_size.1
    ((levelKeys (ns.map (·.y))).foldl
      (fun st y => relaxLevel conn node_size.1 damp y passes st) ns)

/-! ### Specification-side definitions (for the refinement claims) -/

/-- Whether the id appears as the target of some `union → person` edge
(spec wording: "has at least one parent"). -/
def isChildTarget (d : FamilyData) (id : String) : Bool :=
  d.links.any (fun p =>
    leadsWith uPre p.1 && ! leadsWith uPre p.2 && decide (p.2 = id))

/-- The natural roots in the spec's wording: members never appearing as
the target of a `union → person` edge and not flagged `is_spouse`. -/
def naturalRoots (d : FamilyData) : List String :=
  (memberKeys d).filter (fun id => ! isChildTarget d id && ! isSpouseFlag d id)

/-- Root discovery as the (amended) specification words it: the natural
roots; when there are none and the member table is non-empty, the
designated start person — provided its id is non-empty and present in
the member table — is the sole root; otherwise no roots. -/
def rootDiscoverySpec (d : FamilyData) : List String :=
  if naturalRoots d ≠ [] then naturalRoots d
  else if d.members ≠ [] ∧ d.start ≠ "" ∧ (memberFind d d.start).isSome then
    [d.start]
  else []

/-! ### Concrete scenario data -/

/-- Build a member record from the fields the scenarios use. -/
def mkMember (nm fn ln : String) (sp : Bool) (g : String) : Member :=
  { name := some nm, first_name := some fn, last_name := some ln,
    is_spouse := sp, gender := some g }

/-- The intermarriage scenario of the specification: root `Y` (`mem_1`)
with child `B` (`mem_2`), root `A` (`mem_3`) with child `C` (`mem_4`),
and the union of `B` and `C` producing child `D` (`mem_5`). -/
def interData : FamilyData :=
  { start := "mem_1",
    members :=
      [("mem_1", mkMember "Family Y Root" "Yilmaz" "Y" false "E"),
       ("mem_2", mkMember "B" "B" "Y" false "E"),
       ("mem_3", mkMember "Family A Root" "Ahmet" "A" false "E"),
       ("mem_4", mkMember "C" "C" "A" false "K"),
       ("mem_5", mkMember "D" "D" "BC" false "E")],
    links :=
      [("mem_1", "u_1_0"), ("u_1_0", "mem_2"),
       ("mem_3", "u_3_0"), ("u_3_0", "mem_4"),
       ("mem_2", "u_2_4"), ("mem_4", "u_2_4"), ("u_2_4", "mem_5")] }

/-- A cyclic (invalid) graph: a union of `mem_1` produces `mem_2` and a
union of `mem_2` produces `mem_1`. -/
def cycData : FamilyData :=
  { start := "mem_1",
    members :=
      [("mem_1", mkMember "Person A" "A" "Test" false "E"),
       ("mem_2", mkMember "Person B" "B" "Test" false "E")],
    links :=
      [("mem_1", "u_1_0"), ("u_1_0", "mem_2"),
       ("mem_2", "u_2_0"), ("u_2_0", "mem_1")] }

/-- Malformed input for root discovery: every member is flagged as a
spouse (so there is no natural root), and the designated start id is
absent from the member table. -/
def noRootData : FamilyData :=
  { start := "mem_9",
    members := [("mem_1", { is_spouse := true })],
    links := [] }

/-- A union edge list in which `mem_9` is linked to union `u_1_2` by a
`person → union` edge although the union's id does not name `mem_9`. -/
def strayLinkData : FamilyData :=
  { start := "mem_1",
    members :=
      [("mem_1", mkMember "P1" "P1" "L1" false "E"),
       ("mem_2", mkMember "P2" "P2" "L2" false "K"),
       ("mem_9", mkMember "P9" "P9" "L9" false "K")],
    links :=
      [("mem_1", "u_1_2"), ("mem_2", "u_1_2"), ("mem_9", "u_1_2")] }

/-- Same-level nodes at `0, 50, 100`, the enforcement test scenario. -/
def wNodes : List DNode :=
  [{ data := "mem_0", x := 0, y := 0 },
   { data := "mem_1", x := 50, y := 0 },
   { data := "mem_2", x := 100, y := 0 }]

/-- A single family, used by the default-active-families counterexample. -/
def oneFamily : List Family :=
  [{ id := "family_mem_1", name := "Family A", color := "#8B5CF6",
     rootMemberId := "mem_1", memberCount := 5 }]

/-- Families used by the default-active-families scenarios. -/
def twoFamilies : List Family :=
  [{ id := "family_mem_1", name := "Family A", color := "#8B5CF6",
     rootMemberId := "mem_1", memberCount := 5 },
   { id := "family_mem_3", name := "Family B", color := "#10B981",
     rootMemberId := "mem_3", memberCount := 8 }]

/-! ### Supporting lemmas: membership in folds and pushes -/

theorem mem_pushIfAbsent {α} [DecidableEq α] {l : List α} {a x : α} :
    x ∈ pushIfAbsent l a ↔ x ∈ l ∨ x = a := by
  unfold pushIfAbsent
  split
  · constructor
    · exact fun h => Or.inl h
    · rintro (h | rfl) <;> assumption
  · simp [or_comm]

theorem foldl_mem_iff {α β} [DecidableEq α] (step : List α → β → List α)
    (P : β → α → Prop)
    (hstep : ∀ acc b x, x ∈ step acc b ↔ x ∈ acc ∨ P b x) :
    ∀ (l : List β) (acc : List α) (x : α),
      x ∈ l.foldl step acc ↔ x ∈ acc ∨ ∃ b ∈ l, P b x := by
  intro l
  induction l with
  | nil => simp
  | cons b t ih =>
    intro acc x
    simp only [List.foldl_cons, ih, hstep, List.mem_cons]
    constructor
    · rintro ((h | h) | ⟨u, hu, hP⟩)
      · exact Or.inl h
      · exact Or.inr ⟨b, Or.inl rfl, h⟩
      · exact Or.inr ⟨u, Or.inr hu, hP⟩
    · rintro (h | ⟨u, (rfl | hu), hP⟩)
      · exact Or.inl (Or.inl h)
      · exact Or.inl (Or.inr hP)
      · exact Or.inr ⟨u, hu, hP⟩

/-! ### Supporting lemmas: tagging -/

theorem tagFrom_map_snd {α} (k : ℕ) (l : List α) :
    (tagFrom k l).map (·.2) = l := by
  induction l generalizing k with
  | nil => rfl
  | cons a t ih => simp [tagFrom, ih]

theorem tagFrom_map_fst {α} (k : ℕ) (l : List α) :
    (tagFrom k l).map (·.1) = List.range' k l.length := by
  induction l generalizing k with
  | nil => rfl
  | cons a t ih => simp [tagFrom, ih, List.range'_succ]

theorem tagFrom_fst_nodup {α} (k : ℕ) (l : List α) :
    ((tagFrom k l).map (·.1)).Nodup := by
  rw [tagFrom_map_fst]; exact List.nodup_range' _ _

theorem tagFrom_map {α β} (k : ℕ) (f : α → β) (l : List α) :
    tagFrom k (l.map f) = (tagFrom k l).map (fun p => (p.1, f p.2)) := by
  induction l generalizing k with
  | nil => rfl
  | cons a t ih => simp [tagFrom, ih]

theorem tagFrom_length {α} (k : ℕ) (l : List α) :
    (tagFrom k l).length = l.length := by
  induction l generalizing k with
  | nil => rfl
  | cons a t ih => simp [tagFrom, ih]

/-- In a list with duplicate-free keys, two members with the same key are
the same pair. -/
theorem eq_of_mem_of_fst_nodup {α β} {l : List (α × β)}
    (h : (l.map (·.1)).Nodup) {p q : α × β}
    (hp : p ∈ l) (hq : q ∈ l) (hk : p.1 = q.1) : p = q := by
  induction l with
  | nil => cases hp
  | cons a t ih =>
    simp only [List.map_cons, List.nodup_cons] at h
    rcases List.mem_cons.mp hp with rfl | hp' <;>
      rcases List.mem_cons.mp hq with rfl | hq'
    · rfl
    · exact absurd (hk ▸ List.mem_map_of_mem (·.1) hq') h.1
    · exact absurd (hk ▸ List.mem_map_of_mem (·.1) hp') h.1
    · exact ih h.2 hp' hq'

theorem assocFind_eq_some_iff {α β} [DecidableEq α] {l : List (α × β)}
    {k : α} {v : β} (h : (l.map (·.1)).Nodup) :
    assocFind l k = some v ↔ (k, v) ∈ l := by
  induction l with
  | nil => simp [assocFind]
  | cons a t ih =>
    simp only [List.map_cons, List.nodup_cons] at h
    by_cases hk : a.1 = k
    · simp only [assocFind, List.find?_cons, hk, decide_eq_true_eq,
        if_pos rfl]
      constructor
      · rintro h'
        obtain rfl : v = a.2 := by simpa using h'.symm
        exact List.mem_cons.mpr (Or.inl (by rw [← hk]))
      · rintro h'
        rcases List.mem_cons.mp h' with h'' | h''
        · simp [← h'']
        · exact absurd (hk ▸ List.mem_map_of_mem (·.1) h'') h.1
    · have : (decide (a.1 = k)) = false := by simpa using hk
      simp only [assocFind, List.find?_cons, this]
      rw [show ((t.find? (fun p => p.1 = k)).map (·.2) = some v ↔
          (k, v) ∈ t) from ih h.2]
      simp only [List.mem_cons]
      constructor
      · exact Or.inr
      · rintro (h' | h')
        · exact absurd (congrArg Prod.fst h'.symm) hk
        · exact h'

theorem assocFind_map_val {α β γ} [DecidableEq α] (l : List (α × β))
    (g : β → γ) (k : α) :
    assocFind (l.map (fun p => (p.1, g p.2))) k = (assocFind l k).map g := by
  induction l with
  | nil => rfl
  | cons a t ih =>
    by_cases hk : a.1 = k
    · simp [assocFind, List.find?_cons, hk]
    · have : (decide (a.1 = k)) = false := by simpa using hk
      simpa [assocFind, List.find?_cons, this] using ih

/-! ### Supporting lemmas: insertion sort by a rational key -/

theorem insertByKey_perm {α} (key : α → ℚ) (a : α) (l : List α) :
    List.Perm (insertByKey key a l) (a :: l) := by
  induction l with
  | nil => rfl
  | cons b t ih =>
    unfold insertByKey
    split
    · rfl
    · exact (ih.cons b).trans (List.Perm.swap a b t)

theorem sortByKey_perm {α} (key : α → ℚ) (l : List α) :
    List.Perm (sortByKey key l) l := by
  induction l with
  | nil => rfl
  | cons a t ih => exact (insertByKey_perm key a _).trans (ih.cons a)

theorem mem_insertByKey {α} {key : α → ℚ} {a x : α} {l : List α} :
    x ∈ insertByKey key a l ↔ x = a ∨ x ∈ l := by
  rw [(insertByKey_perm key a l).mem_iff]; simp

theorem insertByKey_pairwise {α} {key : α → ℚ} {a : α} {l : List α}
    (h : l.Pairwise (fun p q => key p ≤ key q)) :
    (insertByKey key a l).Pairwise (fun p q => key p ≤ key q) := by
  induction l with
  | nil => simp [insertByKey]
  | cons b t ih =>
    unfold insertByKey
    rcases List.pairwise_cons.mp h with ⟨hb, ht⟩
    split
    · rename_i hab
      exact List.pairwise_cons.mpr
        ⟨fun x hx => by
          rcases List.mem_cons.mp hx with rfl | hx
          · exact hab
          · exact le_trans hab (hb x hx), h⟩
    · rename_i hab
      push_neg at hab
      exact List.pairwise_cons.mpr
        ⟨fun x hx => by
          rcases mem_insertByKey.mp hx with rfl | hx
          · exact le_of_lt hab
          · exact hb x hx, ih ht⟩

theorem sortByKey_pairwise {α} (key : α → ℚ) (l : List α) :
    (sortByKey key l).Pairwise (fun p q => key p ≤ key q) := by
  induction l with
  | nil => simp [sortByKey]
  | cons a t ih => exact insertByKey_pairwise ih

theorem insertByKey_of_head_le {α} {key : α → ℚ} {a : α} {l : List α}
    (h : ∀ b ∈ l, key a ≤ key b) : insertByKey key a l = a :: l := by
  cases l with
  | nil => rfl
  | cons b t => simp [insertByKey, h b (List.mem_cons_self b t)]

theorem sortByKey_of_pairwise {α} {key : α → ℚ} {l : List α}
    (h : l.Pairwise (fun p q => key p ≤ key q)) : sortByKey key l = l := by
  induction l with
  | nil => rfl
  | cons a t ih =>
    rcases List.pairwise_cons.mp h with ⟨ha, ht⟩
    rw [sortByKey, ih ht, insertByKey_of_head_le ha]

theorem insertByKey_map {α} (key : α → ℚ) (f : α → α)
    (hf : ∀ a b, key (f a) ≤ key (f b) ↔ key a ≤ key b) (a : α) (l : List α) :
    insertByKey key (f a) (l.map f) = (insertByKey key a l).map f := by
  induction l with
  | nil => rfl
  | cons b t ih =>
    simp only [List.map_cons]
    unfold insertByKey
    by_cases h : key a ≤ key b
    · rw [if_pos ((hf a b).mpr h), if_pos h]; simp
    · rw [if_neg (fun hc => h ((hf a b).mp hc)), if_neg h, List.map_cons, ih]

theorem sortByKey_map {α} (key : α → ℚ) (f : α → α)
    (hf : ∀ a b, key (f a) ≤ key (f b) ↔ key a ≤ key b) (l : List α) :
    sortByKey key (l.map f) = (sortByKey key l).map f := by
  induction l with
  | nil => rfl
  | cons a t ih => simp only [List.map_cons, sortByKey, ih]
                   exact insertByKey_map key f hf a _

/-- Two permuted lists that are both sorted by a key agree when the keys
are duplicate-free. -/
theorem eq_of_perm_of_sorted_key {α} (key : α → ℚ) :
    ∀ {l₁ l₂ : List α}, List.Perm l₁ l₂ →
      l₁.Pairwise (fun p q => key p ≤ key q) →
      l₂.Pairwise (fun p q => key p ≤ key q) →
      (l₁.map key).Nodup → l₁ = l₂ := by
  intro l₁
  induction l₁ with
  | nil => intro l₂ hp _ _ _; exact hp.nil_eq
  | cons a t₁ ih =>
    intro l₂ hp h₁ h₂ hn
    cases l₂ with
    | nil => exact absurd hp.symm.nil_eq (by simp)
    | cons b t₂ =>
      rcases List.pairwise_cons.mp h₁ with ⟨ha, ht₁⟩
      rcases List.pairwise_cons.mp h₂ with ⟨hb, ht₂⟩
      simp only [List.map_cons, List.nodup_cons] at hn
      by_cases hab : a = b
      · subst hab
        have htp : List.Perm t₁ t₂ := hp.cons_inv
        rw [ih htp ht₁ ht₂ hn.2]
      · exfalso
        have hat₂ : a ∈ t₂ := by
          have := hp.mem_iff.mp (List.mem_cons_self a t₁)
          rcases List.mem_cons.mp this with h | h
          · exact absurd h hab
          · exact h
        have hbt₁ : b ∈ t₁ := by
          have := hp.mem_iff.mpr (List.mem_cons_self b t₂)
          rcases List.mem_cons.mp this with h | h
          · exact absurd h.symm hab
          · exact h
        have h1 : key a ≤ key b := ha b hbt₁
        have h2 : key b ≤ key a := hb a hat₂
        exact hn.1 (le_antisymm h1 h2 ▸ List.mem_map_of_mem key hbt₁)

/-! ### Supporting lemmas: the enforcement sweep -/

theorem sweepN_fst (s : ℚ) :
    ∀ (acc : Option ℚ) (l : List (ℕ × DNode)),
      (sweepN s acc l).map (·.1) = l.map (·.1) := by
  intro acc l
  induction l generalizing acc with
  | nil => cases acc <;> rfl
  | cons p t ih => cases acc <;> simp [sweepN, ih]

/-- Pointwise shape of the sweep: tags, ids and levels are untouched and
no coordinate decreases. -/
theorem sweepN_forall₂ (s : ℚ) :
    ∀ (acc : Option ℚ) (l : List (ℕ × DNode)),
      List.Forall₂ (fun p q => q.1 = p.1 ∧ q.2.data = p.2.data ∧
        q.2.y = p.2.y ∧ p.2.x ≤ q.2.x) l (sweepN s acc l) := by
  intro acc l
  induction l generalizing acc with
  | nil => cases acc <;> exact List.Forall₂.nil
  | cons p t ih =>
    cases acc with
    | none => exact List.Forall₂.cons ⟨rfl, rfl, rfl, le_refl _⟩ (ih _)
    | some prev =>
      exact List.Forall₂.cons ⟨rfl, rfl, rfl, le_max_left _ _⟩ (ih _)

theorem forall₂_mem_right {α β} {R : α → β → Prop} :
    ∀ {l₁ : List α} {l₂ : List β}, List.Forall₂ R l₁ l₂ →
      ∀ q ∈ l₂, ∃ p ∈ l₁, R p q := by
  intro l₁ l₂ h
  induction h with
  | nil => intro q hq; cases hq
  | cons hr _ ih =>
    intro q hq
    rcases List.mem_cons.mp hq with rfl | hq'
    · exact ⟨_, List.mem_cons_self _ _, hr⟩
    · obtain ⟨p, hp, hR⟩ := ih q hq'
      exact ⟨p, List.mem_cons_of_mem _ hp, hR⟩

theorem forall₂_mem_left {α β} {R : α → β → Prop} :
    ∀ {l₁ : List α} {l₂ : List β}, List.Forall₂ R l₁ l₂ →
      ∀ p ∈ l₁, ∃ q ∈ l₂, R p q := by
  intro l₁ l₂ h
  induction h with
  | nil => intro p hp; cases hp
  | cons hr _ ih =>
    intro p hp
    rcases List.mem_cons.mp hp with rfl | hp'
    · exact ⟨_, List.mem_cons_self _ _, hr⟩
    · obtain ⟨q, hq, hR⟩ := ih p hp'
      exact ⟨q, List.mem_cons_of_mem _ hq, hR⟩

/-- The swept coordinates are spaced at least `s` apart, and when the
accumulator is set the first one clears it by `s`. -/
theorem sweepN_some_chain (s : ℚ) :
    ∀ (l : List (ℕ × DNode)) (prev : ℚ),
      List.Chain' (fun p q => p.2.x + s ≤ q.2.x) (sweepN s (some prev) l) ∧
      ∀ q ∈ (sweepN s (some prev) l).head?, prev + s ≤ q.2.x := by
  intro l
  induction l with
  | nil => exact fun prev => ⟨List.chain'_nil, by simp [sweepN]⟩
  | cons p t ih =>
    intro prev
    constructor
    · refine List.chain'_cons'.mpr ⟨?_, (ih _).1⟩
      intro q hq
      exact (ih (max p.2.x (prev + s))).2 q hq
    · intro q hq
      simp only [sweepN, Option.mem_def, List.head?_cons, Option.some_inj] at hq
      subst hq
      exact le_max_right p.2.x (prev + s)

theorem sweepN_chain (s : ℚ) (acc : Option ℚ) (l : List (ℕ × DNode)) :
    List.Chain' (fun p q => p.2.x + s ≤ q.2.x) (sweepN s acc l) := by
  cases acc with
  | some prev => exact (sweepN_some_chain s l prev).1
  | none =>
    cases l with
    | nil => exact List.chain'_nil
    | cons p t =>
      refine List.chain'_cons'.mpr ⟨?_, (sweepN_some_chain s t p.2.x).1⟩
      exact fun q hq => (sweepN_some_chain s t p.2.x).2 q hq

/-- Node records are unchanged by an update that rewrites `x` to itself. -/
theorem dnode_update_x_self (n : DNode) : { n with x := n.x } = n := rfl

/-- A sweep over an already-compliant list changes nothing. -/
theorem sweepN_of_spaced (s : ℚ) :
    ∀ (l : List (ℕ × DNode)),
      List.Chain' (fun p q => p.2.x + s ≤ q.2.x) l →
      (sweepN s none l = l ∧
        ∀ prev : ℚ, (∀ q ∈ l.head?, prev + s ≤ q.2.x) →
          sweepN s (some prev) l = l) := by
  intro l
  induction l with
  | nil => exact fun _ => ⟨rfl, fun _ _ => rfl⟩
  | cons p t ih =>
    intro hc
    rcases List.chain'_cons'.mp hc with ⟨hhead, htail⟩
    have iht := ih htail
    have tail_some : sweepN s (some p.2.x) t = t :=
      iht.2 p.2.x hhead
    refine ⟨by simp [sweepN, tail_some], ?_⟩
    intro prev hprev
    have hp : prev + s ≤ p.2.x := by
      have := hprev p (by simp)
      simpa using this
    have hmax : max p.2.x (prev + s) = p.2.x := max_eq_left hp
    simp [sweepN, hmax, tail_some]

/-- Equivariance of the sweep under a uniform horizontal shift. -/
theorem sweepN_map_shift (s c : ℚ) :
    ∀ (acc : Option ℚ) (l : List (ℕ × DNode)),
      sweepN s (acc.map (· + c)) (l.map (fun p => (p.1, shiftX c p.2))) =
        (sweepN s acc l).map (fun p => (p.1, shiftX c p.2)) := by
  intro acc l
  induction l generalizing acc with
  | nil => cases acc <;> rfl
  | cons p t ih =>
    cases acc with
    | none =>
      have := ih (some p.2.x)
      simpa [sweepN, shiftX] using this
    | some prev =>
      have hmax : max (p.2.x + c) (prev + c + s) =
          max p.2.x (prev + s) + c := by
        rw [show prev + c + s = prev + s + c by ring, max_add_add_right]
      have := ih (some (max p.2.x (prev + s)))
      simp only [sweepN, List.map_cons, shiftX, Option.map_some] at this ⊢
      rw [hmax]
      exact congrArg _ this

/-! ### Supporting lemmas: level keys -/

theorem mem_levelKeys : ∀ {l : List ℚ} {y : ℚ}, y ∈ levelKeys l ↔ y ∈ l := by
  intro l
  induction l using levelKeys.induct with
  | case1 => simp [levelKeys]
  | case2 z ys ih =>
    intro y
    rw [levelKeys]
    simp only [List.mem_cons, ih]
    constructor
    · rintro (rfl | h)
      · exact Or.inl rfl
      · exact Or.inr (List.mem_of_mem_filter h)
    · rintro (rfl | h)
      · exact Or.inl rfl
      · by_cases hz : y = z
        · exact Or.inl hz
        · exact Or.inr (List.mem_filter.mpr ⟨h, by simpa using hz⟩)

theorem levelKeys_nodup : ∀ (l : List ℚ), (levelKeys l).Nodup := by
  intro l
  induction l using levelKeys.induct with
  | case1 => simp [levelKeys]
  | case2 z ys ih =>
    rw [levelKeys]
    refine List.nodup_cons.mpr ⟨?_, ih⟩
    intro hz
    have := List.of_mem_filter (mem_levelKeys.mp hz)
    simp at this

/-! ### Supporting lemmas: level blocks and the enforcement pass -/

theorem filter_map_comm {α β} (f : α → β) (p : β → Bool) (l : List α) :
    (l.map f).filter p = (l.filter (fun a => p (f a))).map f := by
  induction l with
  | nil => rfl
  | cons a t ih =>
    by_cases h : p (f a) <;> simp [List.filter_cons, h, ih]

theorem filter_eq_nil_of_not_memY (y : ℚ) {l : List (ℕ × DNode)}
    (h : y ∉ l.map (·.2.y)) :
    l.filter (fun p => decide (p.2.y = y)) = [] := by
  induction l with
  | nil => rfl
  | cons p t ih =>
    simp only [List.map_cons, List.mem_cons] at h
    push_neg at h
    rw [List.filter_cons, if_neg (by simpa using Ne.symm h.1)]
    exact ih h.2

theorem map_eq_of_forall₂ {α β} {R : α → β → Prop} (f : α → β) :
    ∀ {l₁ : List α} {l₂ : List β}, List.Forall₂ R l₁ l₂ →
      (∀ p q, R p q → p ∈ l₁ → q ∈ l₂ → f p = q) → l₁.map f = l₂ := by
  intro l₁ l₂ h
  induction h with
  | nil => intro _; rfl
  | cons hr ht ih =>
    intro hf
    simp only [List.map_cons]
    rw [hf _ _ hr (List.mem_cons_self _ _) (List.mem_cons_self _ _),
      ih (fun p q hR hp hq =>
        hf p q hR (List.mem_cons_of_mem _ hp) (List.mem_cons_of_mem _ hq))]

theorem levelBlock_fst_perm (s : ℚ) (tagged : List (ℕ × DNode)) (y : ℚ) :
    List.Perm ((levelBlock s tagged y).map (·.1))
      ((tagged.filter (fun p => decide (p.2.y = y))).map (·.1)) := by
  rw [levelBlock, sweepN_fst]
  exact (sortByKey_perm _ _).map _

theorem mem_levelBlock (s : ℚ) (tagged : List (ℕ × DNode)) (y : ℚ)
    {q : ℕ × DNode} (hq : q ∈ levelBlock s tagged y) :
    ∃ p ∈ tagged, p.1 = q.1 ∧ p.2.data = q.2.data ∧ p.2.y = q.2.y ∧
      p.2.x ≤ q.2.x ∧ p.2.y = y := by
  obtain ⟨p, hp, hR⟩ := forall₂_mem_right (sweepN_forall₂ s none _) q hq
  have hp' : p ∈ tagged.filter (fun p => decide (p.2.y = y)) :=
    (sortByKey_perm (·.2.x) _).mem_iff.mp hp
  have hy : p.2.y = y := by simpa using List.of_mem_filter hp'
  exact ⟨p, List.mem_of_mem_filter hp', hR.1.symm, hR.2.1.symm, hR.2.2.1.symm,
    hR.2.2.2, hy⟩

theorem fst_mem_levelBlock (s : ℚ) (tagged : List (ℕ × DNode)) {y : ℚ}
    {p : ℕ × DNode} (hp : p ∈ tagged) (hy : p.2.y = y) :
    p.1 ∈ (levelBlock s tagged y).map (·.1) := by
  refine (levelBlock_fst_perm s tagged y).mem_iff.mpr ?_
  exact List.mem_map_of_mem _ (List.mem_filter.mpr ⟨hp, by simpa using hy⟩)

theorem enforceBlocks_fst_nodup (s : ℚ) {tagged : List (ℕ × DNode)}
    (hn : (tagged.map (·.1)).Nodup) :
    ((enforceBlocks s tagged).map (·.1)).Nodup := by
  have block_nodup : ∀ y, ((levelBlock s tagged y).map (·.1)).Nodup := by
    intro y
    refine ((levelBlock_fst_perm s tagged y).nodup_iff).mpr ?_
    exact (List.Sublist.map (·.1) (List.filter_sublist tagged)).nodup hn
  have block_y : ∀ y i, i ∈ (levelBlock s tagged y).map (·.1) →
      ∃ p ∈ tagged, p.1 = i ∧ p.2.y = y := by
    intro y i hi
    obtain ⟨q, hq, rfl⟩ := List.mem_map.mp hi
    obtain ⟨p, hp, h1, _, _, _, h5⟩ := mem_levelBlock s tagged y hq
    exact ⟨p, hp, h1, h5⟩
  -- it suffices that the level keys are distinct
  have : ∀ ys : List ℚ, ys.Nodup →
      ((ys.flatMap (levelBlock s tagged)).map (·.1)).Nodup := by
    intro ys
    induction ys with
    | nil => simp
    | cons y t ih =>
      intro hys
      rcases List.nodup_cons.mp hys with ⟨hyt, ht⟩
      simp only [List.flatMap_cons, List.map_append]
      refine List.Nodup.append (block_nodup y) (ih ht) ?_
      intro i hi₁ hi₂
      obtain ⟨p, hp, hpi, hpy⟩ := block_y y i hi₁
      simp only [List.map_flatMap] at hi₂
      obtain ⟨y', hy', hiy'⟩ := List.mem_flatMap.mp hi₂
      obtain ⟨p', hp', hpi', hpy'⟩ := block_y y' i hiy'
      have : p = p' := eq_of_mem_of_fst_nodup hn hp hp' (hpi.trans hpi'.symm)
      exact hyt (by rw [← hpy, this, hpy']; exact hy')
  exact this _ (levelKeys_nodup _)

/-- Every tagged node has exactly one assignment in the enforcement
blocks: same id and level, coordinate not decreased. -/
theorem enforce_lookup (s : ℚ) (ns : List DNode) :
    ∀ p ∈ tagFrom 0 ns,
      ∃ n', assocFind (enforceBlocks s (tagFrom 0 ns)) p.1 = some n' ∧
        (p.1, n') ∈ levelBlock s (tagFrom 0 ns) p.2.y ∧
        n'.data = p.2.data ∧ n'.y = p.2.y ∧ p.2.x ≤ n'.x := by
  intro p hp
  have hn := tagFrom_fst_nodup 0 ns
  have hy : p.2.y ∈ levelKeys ((tagFrom 0 ns).map (·.2.y)) :=
    mem_levelKeys.mpr (List.mem_map_of_mem _ hp)
  obtain ⟨q, hq, hq1⟩ := List.mem_map.mp
    (fst_mem_levelBlock s (tagFrom 0 ns) hp rfl)
  have hqblocks : q ∈ enforceBlocks s (tagFrom 0 ns) :=
    List.mem_flatMap.mpr ⟨p.2.y, hy, hq⟩
  obtain ⟨p₀, hp₀, h1, h2, h3, h4, _⟩ := mem_levelBlock s _ _ hq
  have hpp : p = p₀ := (eq_of_mem_of_fst_nodup hn hp₀ hp (h1.trans hq1)).symm
  subst hpp
  refine ⟨q.2, ?_, ?_, h2.symm, h3.symm, h4⟩
  · exact (assocFind_eq_some_iff (enforceBlocks_fst_nodup s hn)).mpr
      (by rwa [show (p.1, q.2) = q from Prod.ext hq1.symm rfl])
  · rwa [show (p.1, q.2) = q from Prod.ext hq1.symm rfl]

theorem forall₂_tagFrom_map {α β} (R : α → β → Prop) (g : ℕ × α → β) :
    ∀ (k : ℕ) (l : List α), (∀ p ∈ tagFrom k l, R p.2 (g p)) →
      List.Forall₂ R l ((tagFrom k l).map g) := by
  intro k l
  induction l generalizing k with
  | nil => intro _; exact List.Forall₂.nil
  | cons a t ih =>
    intro h
    simp only [tagFrom, List.map_cons]
    exact List.Forall₂.cons (h (k, a) (List.mem_cons_self _ _))
      (ih (k + 1) fun p hp => h p (List.mem_cons_of_mem _ hp))

theorem tagFrom_of_map_tagFrom {α β} (g : ℕ × α → β) :
    ∀ (k : ℕ) (ns : List α),
      tagFrom k ((tagFrom k ns).map g) =
        (tagFrom k ns).map (fun p => (p.1, g p)) := by
  intro k ns
  induction ns generalizing k with
  | nil => rfl
  | cons a t ih => simp [tagFrom, ih (k + 1)]

theorem enfUpd_y (s : ℚ) (tagged : List (ℕ × DNode)) (p : ℕ × DNode) :
    (enfUpd s tagged p).y = p.2.y := by
  unfold enfUpd
  cases assocFind (enforceBlocks s tagged) p.1 <;> rfl

theorem enfUpd_data (s : ℚ) (tagged : List (ℕ × DNode)) (p : ℕ × DNode) :
    (enfUpd s tagged p).data = p.2.data := by
  unfold enfUpd
  cases assocFind (enforceBlocks s tagged) p.1 <;> rfl

theorem enforce_placement_map_y (s : ℚ) (ns : List DNode) :
    (enforce_placement s ns).map (·.y) = ns.map (·.y) := by
  unfold enforce_placement
  rw [List.map_map]
  refine (List.map_congr_left
    (fun p (_ : p ∈ tagFrom 0 ns) => enfUpd_y s (tagFrom 0 ns) p)).trans ?_
  rw [show (fun p : ℕ × DNode => p.2.y) = ((·.y) ∘ (·.2)) from rfl,
    ← List.map_map, tagFrom_map_snd]

/-- The enforcement pass never decreases a node's coordinate, and never
touches ids or levels (pointwise, in the collection's order). -/
theorem enforce_placement_forall₂ (s : ℚ) (ns : List DNode) :
    List.Forall₂ (fun a b => b.data = a.data ∧ b.y = a.y ∧ a.x ≤ b.x)
      ns (enforce_placement s ns) := by
  unfold enforce_placement
  refine forall₂_tagFrom_map _ _ 0 ns ?_
  intro p hp
  obtain ⟨n', hfind, _, _, _, hx⟩ := enforce_lookup s ns p hp
  unfold enfUpd
  rw [hfind]
  exact ⟨rfl, rfl, hx⟩

/-- Nodes already spaced at least `s` apart within every level are left
completely unchanged by the enforcement pass. -/
theorem enforce_placement_of_spaced (s : ℚ) (hs : 0 ≤ s) (ns : List DNode)
    (h : ∀ y : ℚ, List.Chain' (fun a b => a.x + s ≤ b.x)
      (ns.filter (fun n => decide (n.y = y)))) :
    enforce_placement s ns = ns := by
  have hn := tagFrom_fst_nodup 0 ns
  have hfilter : ∀ y : ℚ, ns.filter (fun n => decide (n.y = y)) =
      ((tagFrom 0 ns).filter (fun p => decide (p.2.y = y))).map (·.2) := by
    intro y
    conv_lhs => rw [← tagFrom_map_snd 0 ns]
    rw [filter_map_comm]
  have hchainP : ∀ y : ℚ, List.Chain' (fun p q : ℕ × DNode =>
      p.2.x + s ≤ q.2.x) ((tagFrom 0 ns).filter (fun p => decide (p.2.y = y))) := by
    intro y
    have := h y
    rw [hfilter y] at this
    exact (List.chain'_map (fun p : ℕ × DNode => p.2)).mp this
  have hsorted : ∀ y : ℚ,
      sortByKey (·.2.x) ((tagFrom 0 ns).filter (fun p => decide (p.2.y = y))) =
        (tagFrom 0 ns).filter (fun p => decide (p.2.y = y)) := by
    intro y
    apply sortByKey_of_pairwise
    haveI : IsTrans (ℕ × DNode) (fun p q => p.2.x + s ≤ q.2.x) :=
      ⟨fun a b c h1 h2 =>
        le_trans h1 (le_trans (le_add_of_nonneg_right hs) h2)⟩
    exact (List.chain'_iff_pairwise.mp (hchainP y)).imp
      (fun h' => le_trans (le_add_of_nonneg_right hs) h')
  have hblock : ∀ y : ℚ, levelBlock s (tagFrom 0 ns) y =
      (tagFrom 0 ns).filter (fun p => decide (p.2.y = y)) := by
    intro y
    unfold levelBlock
    rw [hsorted]
    exact (sweepN_of_spaced s _ (hchainP y)).1
  have hfind : ∀ p ∈ tagFrom 0 ns,
      assocFind (enforceBlocks s (tagFrom 0 ns)) p.1 = some p.2 := by
    intro p hp
    apply (assocFind_eq_some_iff (enforceBlocks_fst_nodup s hn)).mpr
    rw [Prod.mk.eta]
    refine List.mem_flatMap.mpr
      ⟨p.2.y, mem_levelKeys.mpr (List.mem_map_of_mem _ hp), ?_⟩
    rw [hblock]
    exact List.mem_filter.mpr ⟨hp, by simp⟩
  unfold enforce_placement
  have hupd : ∀ p ∈ tagFrom 0 ns, enfUpd s (tagFrom 0 ns) p = p.2 := by
    intro p hp
    unfold enfUpd
    rw [hfind p hp]
  rw [List.map_congr_left hupd]
  exact tagFrom_map_snd 0 ns

/-- The sorted level group, written back, is exactly the swept block. -/
theorem sorted_map_upd_eq_block (s : ℚ) (ns : List DNode) (y : ℚ)
    (hy : y ∈ levelKeys ((tagFrom 0 ns).map (·.2.y))) :
    (sortByKey (·.2.x)
        ((tagFrom 0 ns).filter (fun p => decide (p.2.y = y)))).map
      (fun p => (p.1, enfUpd s (tagFrom 0 ns) p)) =
      levelBlock s (tagFrom 0 ns) y := by
  have hn : ((tagFrom 0 ns).map (·.1)).Nodup := tagFrom_fst_nodup 0 ns
  refine map_eq_of_forall₂ _ (sweepN_forall₂ s none _) ?_
  intro p q hR hp hq
  obtain ⟨pi, pn⟩ := p
  obtain ⟨qi, qn⟩ := q
  obtain ⟨h1, h2, h3, h4⟩ := hR
  have h1' : qi = pi := h1
  subst h1'
  have hq' : (qi, qn) ∈ enforceBlocks s (tagFrom 0 ns) :=
    List.mem_flatMap.mpr ⟨y, hy, hq⟩
  have hfind : assocFind (enforceBlocks s (tagFrom 0 ns)) qi = some qn :=
    (assocFind_eq_some_iff (enforceBlocks_fst_nodup s hn)).mpr hq'
  show (qi, enfUpd s (tagFrom 0 ns) (qi, pn)) = (qi, qn)
  unfold enfUpd
  simp only [hfind]
  obtain ⟨pd, px, py⟩ := pn
  obtain ⟨qd, qx, qy⟩ := qn
  have h2' : qd = pd := h2
  have h3' : qy = py := h3
  subst h2'
  subst h3'
  rfl

/-- Applying the enforcement pass twice gives the same node list as
applying it once. -/
theorem enforce_placement_idem (s : ℚ) (hs : 0 < s) (ns : List DNode) :
    enforce_placement s (enforce_placement s ns) = enforce_placement s ns := by
  have htagged' : tagFrom 0 (enforce_placement s ns) =
      (tagFrom 0 ns).map (fun p => (p.1, enfUpd s (tagFrom 0 ns) p)) :=
    tagFrom_of_map_tagFrom (enfUpd s (tagFrom 0 ns)) 0 ns
  have hyeq : (tagFrom 0 (enforce_placement s ns)).map (·.2.y) =
      (tagFrom 0 ns).map (·.2.y) := by
    rw [htagged', List.map_map]
    exact List.map_congr_left
      (fun p _ => enfUpd_y s (tagFrom 0 ns) p)
  haveI : IsTrans (ℕ × DNode) (fun p q => p.2.x + s ≤ q.2.x) :=
    ⟨fun a b c h1 h2 =>
      le_trans h1 (le_trans (le_add_of_nonneg_right (le_of_lt hs)) h2)⟩
  have hblocks : enforceBlocks s (tagFrom 0 (enforce_placement s ns)) =
      enforceBlocks s (tagFrom 0 ns) := by
    unfold enforceBlocks
    rw [hyeq]
    apply List.flatMap_congr
    intro y hy
    have hW := sorted_map_upd_eq_block s ns y hy
    have hfilt : (tagFrom 0 (enforce_placement s ns)).filter
        (fun p => decide (p.2.y = y)) =
        ((tagFrom 0 ns).filter (fun p => decide (p.2.y = y))).map
          (fun p => (p.1, enfUpd s (tagFrom 0 ns) p)) := by
      rw [htagged', filter_map_comm]
      exact congrArg _ (List.filter_congr
        (fun p _ => by simp [enfUpd_y s (tagFrom 0 ns) p]))
    have hperm : List.Perm ((tagFrom 0 (enforce_placement s ns)).filter
        (fun p => decide (p.2.y = y))) (levelBlock s (tagFrom 0 ns) y) := by
      rw [hfilt, ← hW]
      exact (sortByKey_perm (fun p : ℕ × DNode => p.2.x) _).symm.map _
    have hWchain : List.Chain' (fun p q : ℕ × DNode => p.2.x + s ≤ q.2.x)
        (levelBlock s (tagFrom 0 ns) y) := sweepN_chain s none _
    have hWpair : (levelBlock s (tagFrom 0 ns) y).Pairwise
        (fun p q => p.2.x ≤ q.2.x) :=
      (List.chain'_iff_pairwise.mp hWchain).imp
        (fun h' => le_trans (le_add_of_nonneg_right (le_of_lt hs)) h')
    have hWnodup : ((levelBlock s (tagFrom 0 ns) y).map (·.2.x)).Nodup := by
      have hWne : (levelBlock s (tagFrom 0 ns) y).Pairwise
          (fun p q => p.2.x ≠ q.2.x) :=
        (List.chain'_iff_pairwise.mp hWchain).imp
          (fun h' => ne_of_lt (lt_of_lt_of_le (lt_add_of_pos_right _ hs) h'))
      exact (List.pairwise_map).mpr hWne
    have hsorted' : sortByKey (·.2.x)
        ((tagFrom 0 (enforce_placement s ns)).filter
          (fun p => decide (p.2.y = y))) = levelBlock s (tagFrom 0 ns) y := by
      refine eq_of_perm_of_sorted_key (·.2.x)
        ((sortByKey_perm _ _).trans hperm) (sortByKey_pairwise _ _) hWpair ?_
      exact (((sortByKey_perm (·.2.x) _).trans hperm).map
        (fun p : ℕ × DNode => p.2.x)).nodup_iff.mpr hWnodup
    show levelBlock s (tagFrom 0 (enforce_placement s ns)) y =
      levelBlock s (tagFrom 0 ns) y
    unfold levelBlock
    rw [hsorted']
    exact (sweepN_of_spaced s _ hWchain).1
  have hfun : ∀ p : ℕ × DNode,
      enfUpd s (tagFrom 0 (enforce_placement s ns)) p =
        enfUpd s (tagFrom 0 ns) p := by
    intro p
    unfold enfUpd
    rw [hblocks]
  show (tagFrom 0 (enforce_placement s ns)).map
    (enfUpd s (tagFrom 0 (enforce_placement s ns))) = enforce_placement s ns
  rw [List.map_congr_left (fun p _ => hfun p), htagged', List.map_map]
  refine List.map_congr_left ?_
  intro p hp
  obtain ⟨n', hfind, _, _, _, _⟩ := enforce_lookup s ns p hp
  show enfUpd s (tagFrom 0 ns)
    (p.1, enfUpd s (tagFrom 0 ns) p) = enfUpd s (tagFrom 0 ns) p
  unfold enfUpd
  simp only [hfind]

/-- After the enforcement pass, every level's nodes, ordered by `x`, are
spaced at least `s` apart. -/
theorem enforce_filter_sorted (s : ℚ) (hs : 0 < s) (st : List DNode)
    (y : ℚ) :
    List.Chain' (fun a b => a.x + s ≤ b.x)
      (sortByKey (·.x)
        ((enforce_placement s st).filter (fun n => decide (n.y = y)))) := by
  have hout : (enforce_placement s st).filter (fun n => decide (n.y = y)) =
      ((tagFrom 0 st).filter (fun p => decide (p.2.y = y))).map
        (enfUpd s (tagFrom 0 st)) := by
    show ((tagFrom 0 st).map (enfUpd s (tagFrom 0 st))).filter _ = _
    rw [filter_map_comm]
    exact congrArg _ (List.filter_congr
      (fun p _ => by simp [enfUpd_y s (tagFrom 0 st) p]))
  by_cases hy : y ∈ levelKeys ((tagFrom 0 st).map (·.2.y))
  · have hW := sorted_map_upd_eq_block s st y hy
    have hWchain : List.Chain' (fun p q : ℕ × DNode => p.2.x + s ≤ q.2.x)
        (levelBlock s (tagFrom 0 st) y) := sweepN_chain s none _
    have hperm : List.Perm
        ((enforce_placement s st).filter (fun n => decide (n.y = y)))
        ((levelBlock s (tagFrom 0 st) y).map (·.2)) := by
      rw [hout]
      have h2 : (sortByKey (·.2.x)
          ((tagFrom 0 st).filter (fun p => decide (p.2.y = y)))).map
            (enfUpd s (tagFrom 0 st)) =
          (levelBlock s (tagFrom 0 st) y).map (·.2) := by
        rw [← hW, List.map_map]
        rfl
      rw [← h2]
      exact (sortByKey_perm (fun p : ℕ × DNode => p.2.x) _).symm.map _
    have hchain_snd : List.Chain' (fun a b : DNode => a.x + s ≤ b.x)
        ((levelBlock s (tagFrom 0 st) y).map (·.2)) :=
      (List.chain'_map (fun p : ℕ × DNode => p.2)).mpr hWchain
    haveI : IsTrans DNode (fun a b => a.x + s ≤ b.x) :=
      ⟨fun a b c h1 h2 =>
        le_trans h1 (le_trans (le_add_of_nonneg_right (le_of_lt hs)) h2)⟩
    have hpair_le : ((levelBlock s (tagFrom 0 st) y).map (·.2)).Pairwise
        (fun a b => a.x ≤ b.x) :=
      (List.chain'_iff_pairwise.mp hchain_snd).imp
        (fun h' => le_trans (le_add_of_nonneg_right (le_of_lt hs)) h')
    have hx_nodup : (((levelBlock s (tagFrom 0 st) y).map (·.2)).map
        (·.x)).Nodup := by
      have hne : ((levelBlock s (tagFrom 0 st) y).map (·.2)).Pairwise
          (fun a b : DNode => a.x ≠ b.x) :=
        (List.chain'_iff_pairwise.mp hchain_snd).imp
          (fun h' => ne_of_lt (lt_of_lt_of_le (lt_add_of_pos_right _ hs) h'))
      exact (List.pairwise_map).mpr hne
    have heq : sortByKey (·.x)
        ((enforce_placement s st).filter (fun n => decide (n.y = y))) =
        (levelBlock s (tagFrom 0 st) y).map (·.2) := by
      refine eq_of_perm_of_sorted_key (fun n : DNode => n.x)
        ((sortByKey_perm _ _).trans hperm) (sortByKey_pairwise _ _)
        hpair_le ?_
      exact (((sortByKey_perm (fun n : DNode => n.x) _).trans hperm).map
        (fun n : DNode => n.x)).nodup_iff.mpr hx_nodup
    rw [heq]
    exact hchain_snd
  · have hnil : (tagFrom 0 st).filter (fun p => decide (p.2.y = y)) = [] :=
      filter_eq_nil_of_not_memY y (fun hmem => hy (mem_levelKeys.mpr hmem))
    rw [hout, hnil]
    exact List.chain'_nil

/-! ### Supporting lemmas: translation equivariance of the engine -/

theorem get?_map' {α β} (f : α → β) (l : List α) (i : ℕ) :
    (l.map f).get? i = (l.get? i).map f := by
  simp [List.getElem?_map]

theorem get_pressure_shift (c : ℚ) (a b : DNode) (s : ℚ) :
    get_pressure (shiftX c a) (shiftX c b) s = get_pressure a b s := by
  unfold get_pressure shiftX
  simp only
  rw [show b.x + c - (a.x + c) = b.x - a.x from by ring]

theorem sum_map_add (l : List ℚ) (c : ℚ) :
    (l.map (· + c)).sum = l.sum + l.length * c := by
  induction l with
  | nil => simp
  | cons a t ih => simp [ih]; ring

theorem gravityTargets_shift (conn : String → List String) (c : ℚ)
    (state : List DNode) (n : DNode) :
    gravityTargets conn (state.map (shiftX c)) (shiftX c n) =
      (gravityTargets conn state n).map (shiftX c) := by
  unfold gravityTargets
  rw [List.map_filterMap]
  refine congrArg (fun f => List.filterMap f (conn n.data))
    (funext fun i => ?_)
  rw [List.find?_map]
  rfl

theorem gravityPull_shift (conn : String → List String) (c : ℚ)
    (state : List DNode) (n : DNode) :
    gravityPull conn (state.map (shiftX c)) (shiftX c n) =
      gravityPull conn state n := by
  unfold gravityPull
  rw [gravityTargets_shift]
  by_cases h : gravityTargets conn state n = []
  · simp [h]
  · have hne : (gravityTargets conn state n).map (shiftX c) ≠ [] := by
      simpa using h
    rw [if_neg hne, if_neg h]
    have hxs : ((gravityTargets conn state n).map (shiftX c)).map (·.x) =
        ((gravityTargets conn state n).map (·.x)).map (· + c) := by
      rw [List.map_map, List.map_map]
      rfl
    have hlen0 : ((gravityTargets conn state n).length : ℚ) ≠ 0 := by
      have : gravityTargets conn state n ≠ [] := h
      simpa [List.length_eq_zero] using this
    rw [hxs, sum_map_add, List.length_map, List.length_map]
    rw [add_div, mul_comm, mul_div_assoc, div_self hlen0, mul_one]
    show _ + c - (n.x + c) = _ - n.x
    ring

theorem passBody_shift (conn : String → List String) (s damp c : ℚ)
    (state lvl : List DNode) (p : ℕ × DNode) :
    passBody conn s damp (state.map (shiftX c)) (lvl.map (shiftX c))
        (Prod.map id (shiftX c) p) =
      ((fun q : String × ℚ => (q.1, q.2 + c)) (passBody conn s damp state lvl p)) := by
  obtain ⟨i, n⟩ := p
  unfold passBody
  have hpl : (match i, (lvl.map (shiftX c)).get? (i - 1) with
      | 0, _ => (0 : ℚ)
      | _ + 1, some l => get_pressure (shiftX c n) l s
      | _ + 1, none => 0) =
      (match i, lvl.get? (i - 1) with
      | 0, _ => (0 : ℚ)
      | _ + 1, some l => get_pressure n l s
      | _ + 1, none => 0) := by
    rw [get?_map']
    cases i with
    | zero => rfl
    | succ j =>
      cases h : lvl.get? (j + 1 - 1) <;> simp [h, get_pressure_shift]
  have hpr : (match (lvl.map (shiftX c)).get? (i + 1) with
      | some r => get_pressure (shiftX c n) r s
      | none => (0 : ℚ)) =
      (match lvl.get? (i + 1) with
      | some r => get_pressure n r s
      | none => (0 : ℚ)) := by
    rw [get?_map']
    cases h : lvl.get? (i + 1) <;> simp [h, get_pressure_shift]
  simp only [Prod.map_apply, id_eq]
  rw [hpl, hpr, gravityPull_shift]
  refine Prod.ext rfl ?_
  show n.x + c + damp * _ = n.x + damp * _ + c
  ring

theorem passAssigns_shift (conn : String → List String) (s damp c : ℚ)
    (state : List DNode) (y : ℚ) :
    passAssigns conn s damp (state.map (shiftX c)) y =
      (passAssigns conn s damp state y).map (fun q => (q.1, q.2 + c)) := by
  unfold passAssigns
  have hfil : (state.map (shiftX c)).filter (fun n => decide (n.y = y)) =
      (state.filter (fun n => decide (n.y = y))).map (shiftX c) := by
    rw [filter_map_comm]
    exact congrArg _ (List.filter_congr (fun a _ => rfl))
  rw [hfil, sortByKey_map (·.x) (shiftX c)
    (fun a b => by simp [shiftX]) _]
  rw [List.enum_map, List.map_map, List.map_map]
  exact List.map_congr_left
    (fun p _ => passBody_shift conn s damp c state _ p)

theorem passUpd_shift (c : ℚ) (y : ℚ) (assigns : List (String × ℚ))
    (n : DNode) :
    passUpd y (assigns.map (fun q => (q.1, q.2 + c))) (shiftX c n) =
      shiftX c (passUpd y assigns n) := by
  unfold passUpd
  by_cases hy : n.y = y
  · rw [if_pos (show (shiftX c n).y = y from hy), if_pos hy]
    rw [show (shiftX c n).data = n.data from rfl,
      assocFind_map_val assigns (· + c) n.data]
    cases h : assocFind assigns n.data with
    | none => rfl
    | some v => rfl
  · rw [if_neg (show ¬ (shiftX c n).y = y from hy), if_neg hy]

theorem applyPass_shift (c : ℚ) (state : List DNode) (y : ℚ)
    (assigns : List (String × ℚ)) :
    applyPass (state.map (shiftX c)) y
        (assigns.map (fun q => (q.1, q.2 + c))) =
      (applyPass state y assigns).map (shiftX c) := by
  unfold applyPass
  rw [List.map_map, List.map_map]
  exact List.map_congr_left (fun n _ => passUpd_shift c y assigns n)

theorem relaxLevelOnce_shift (conn : String → List String) (s damp c y : ℚ)
    (state : List DNode) :
    relaxLevelOnce conn s damp y (state.map (shiftX c)) =
      (relaxLevelOnce conn s damp y state).map (shiftX c) := by
  unfold relaxLevelOnce
  rw [passAssigns_shift, applyPass_shift]

theorem relaxLevel_shift (conn : String → List String) (s damp c y : ℚ) :
    ∀ (passes : ℕ) (state : List DNode),
      relaxLevel conn s damp y passes (state.map (shiftX c)) =
        (relaxLevel conn s damp y passes state).map (shiftX c) := by
  intro passes
  induction passes with
  | zero => intro state; rfl
  | succ p ih =>
    intro state
    show relaxLevel conn s damp y p
        (relaxLevelOnce conn s damp y (state.map (shiftX c))) = _
    rw [relaxLevelOnce_shift]
    exact ih _

theorem foldl_comm_map {α β} (f : β → α → β) (g : β → β)
    (h : ∀ b a, f (g b) a = g (f b a)) :
    ∀ (l : List α) (b : β), l.foldl f (g b) = g (l.foldl f b) := by
  intro l
  induction l with
  | nil => intro b; rfl
  | cons a t ih =>
    intro b
    show t.foldl f (f (g b) a) = _
    rw [h b a]
    exact ih _

theorem levelBlock_shift (s c : ℚ) (tagged : List (ℕ × DNode)) (y : ℚ) :
    levelBlock s (tagged.map (fun p => (p.1, shiftX c p.2))) y =
      (levelBlock s tagged y).map (fun p => (p.1, shiftX c p.2)) := by
  unfold levelBlock
  rw [filter_map_comm]
  rw [List.filter_congr
    (fun (p : ℕ × DNode) (_ : p ∈ tagged) => rfl :
      ∀ p ∈ tagged, (fun p : ℕ × DNode => decide (((p.1, shiftX c p.2)).2.y = y)) p =
        (fun p : ℕ × DNode => decide (p.2.y = y)) p)]
  rw [sortByKey_map (·.2.x) (fun p => (p.1, shiftX c p.2))
    (fun a b => by simp [shiftX]) _]
  have := sweepN_map_shift s c none
    (sortByKey (·.2.x) (tagged.filter (fun p => decide (p.2.y = y))))
  simpa using this

theorem enforceBlocks_shift (s c : ℚ) (tagged : List (ℕ × DNode)) :
    enforceBlocks s (tagged.map (fun p => (p.1, shiftX c p.2))) =
      (enforceBlocks s tagged).map (fun p => (p.1, shiftX c p.2)) := by
  unfold enforceBlocks
  have hy : (tagged.map (fun p => (p.1, shiftX c p.2))).map (·.2.y) =
      tagged.map (·.2.y) := by
    rw [List.map_map]
    exact List.map_congr_left (fun p _ => rfl)
  rw [hy, List.map_flatMap]
  exact List.flatMap_congr (fun y _ => levelBlock_shift s c tagged y)

theorem enforce_placement_shift (s c : ℚ) (ns : List DNode) :
    enforce_placement s (ns.map (shiftX c)) =
      (enforce_placement s ns).map (shiftX c) := by
  unfold enforce_placement
  rw [tagFrom_map 0 (shiftX c) ns, List.map_map, List.map_map]
  apply List.map_congr_left
  intro p _
  show enfUpd s ((tagFrom 0 ns).map (fun p => (p.1, shiftX c p.2)))
    (p.1, shiftX c p.2) = shiftX c (enfUpd s (tagFrom 0 ns) p)
  unfold enfUpd
  rw [enforceBlocks_shift,
    show ((p.1, shiftX c p.2) : ℕ × DNode).1 = p.1 from rfl,
    assocFind_map_val (enforceBlocks s (tagFrom 0 ns)) (shiftX c) p.1]
  cases h : assocFind (enforceBlocks s (tagFrom 0 ns)) p.1 with
  | none => rfl
  | some n => rfl

/-- Translation equivariance of the full engine pipeline. -/
theorem run_shift (conn : String → List String) (node_size : ℚ × ℚ)
    (damp : ℚ) (passes : ℕ) (c : ℚ) (ns : List DNode) :
    run conn node_size damp passes (ns.map (shiftX c)) =
      (run conn node_size damp passes ns).map (shiftX c) := by
  unfold run
  have hy : (ns.map (shiftX c)).map (·.y) = ns.map (·.y) := by
    rw [List.map_map]
    exact List.map_congr_left (fun n _ => rfl)
  rw [hy]
  rw [foldl_comm_map
    (fun st y => relaxLevel conn node_size.1 damp y passes st)
    (List.map (shiftX c))
    (fun b a => relaxLevel_shift conn node_size.1 damp c a passes b)
    (levelKeys (ns.map (·.y))) ns]
  exact enforce_placement_shift node_size.1 c _

/-! ### Claim theorems: relaxation engine -/

/-- C1: after `run()` completes, within every level (nodes grouped by
vertical coordinate), every adjacent pair of nodes ordered by `x`
satisfies `x[i+1] - x[i] >= nodeSize` (exactly, in the rational model),
for every input graph, damping, pass count and initial placement. -/
theorem C1_run_nonoverlap (conn : String → List String)
    (node_size : ℚ × ℚ) (damp : ℚ) (passes : ℕ) (ns : List DNode) (y : ℚ)
    (hs : 0 < node_size.1) :
    List.Chain' (fun a b => a.x + node_size.1 ≤ b.x)
      (sortByKey (·.x)
        ((run conn node_size damp passes ns).filter
          (fun n => decide (n.y = y)))) := by
  unfold run
  exact enforce_filter_sorted node_size.1 hs _ y

/-- Witness for C1: the end-to-end scenario — three same-level nodes at
`x = 0, 10, 20` with node size `100`. -/
theorem C1_run_nonoverlap_witness :
    0 < ((100, 100) : ℚ × ℚ).1 ∧
    List.Chain' (fun a b => a.x + ((100, 100) : ℚ × ℚ).1 ≤ b.x)
      (sortByKey (·.x)
        ((run (fun _ => []) (100, 100) (1 / 2) 8
            [⟨"mem_0", 0, 0⟩, ⟨"mem_1", 10, 0⟩, ⟨"mem_2", 20, 0⟩]).filter
          (fun n => decide (n.y = 0)))) :=
  ⟨by norm_num,
    C1_run_nonoverlap (fun _ => []) (100, 100) (1 / 2) 8
      [⟨"mem_0", 0, 0⟩, ⟨"mem_1", 10, 0⟩, ⟨"mem_2", 20, 0⟩] 0 (by norm_num)⟩

/-- C5 counterexample: the claim says `pressure(A, B, size)` with
`A.x = 50, B.x = 0, size = 100` returns `+50`; the engine (as pinned by
the repository's own unit tests) returns `-50`. -/
theorem C5_pressure_sign_counterexample :
    get_pressure ⟨"A", 50, 0⟩ ⟨"B", 0, 0⟩ 100 = -50 ∧ ((-50 : ℚ) ≠ 50) := by
  constructor
  · norm_num [get_pressure]
  · norm_num

/-- C5 (amended): `pressure` returns `+(minSpacing - gap)` when the
neighbor is to the RIGHT and closer than `minSpacing`,
`-(minSpacing - gap)` when the neighbor is to the LEFT and closer than
`minSpacing`, and exactly `0` when the gap is at least `minSpacing` —
the sign convention opposite to the claim's, as fixed by the
repository's unit tests. -/
theorem C5_pressure_sign_amended (node neighbor : DNode) (s : ℚ) :
    (node.x < neighbor.x → neighbor.x - node.x < s →
      get_pressure node neighbor s = s - (neighbor.x - node.x)) ∧
    (neighbor.x < node.x → node.x - neighbor.x < s →
      get_pressure node neighbor s = -(s - (node.x - neighbor.x))) ∧
    (s ≤ |neighbor.x - node.x| → get_pressure node neighbor s = 0) := by
  simp only [get_pressure]
  refine ⟨?_, ?_, ?_⟩
  · intro h1 h2
    rw [if_pos (by linarith : (0 : ℚ) < neighbor.x - node.x), if_pos h2]
  · intro h1 h2
    have hd : neighbor.x - node.x < 0 := by linarith
    rw [if_neg (by linarith : ¬ (0 : ℚ) < neighbor.x - node.x), if_pos hd,
      if_pos (by linarith : -(neighbor.x - node.x) < s)]
    ring
  · intro h
    by_cases h0 : 0 < neighbor.x - node.x
    · rw [abs_of_pos h0] at h
      rw [if_pos h0, if_neg (not_lt.mpr h)]
    · by_cases h0' : neighbor.x - node.x < 0
      · rw [abs_of_neg h0'] at h
        rw [if_neg h0, if_pos h0', if_neg (not_lt.mpr h)]
      · rw [if_neg h0, if_neg h0']

/-- Witness for the amended C5: the three pinned concrete values. -/
theorem C5_pressure_sign_amended_witness :
    get_pressure ⟨"A", 50, 0⟩ ⟨"B", 0, 0⟩ 100 = -(100 - (50 - 0)) ∧
    get_pressure ⟨"A", 0, 0⟩ ⟨"B", 50, 0⟩ 100 = 100 - (50 - 0) ∧
    get_pressure ⟨"A", 100, 0⟩ ⟨"B", 0, 0⟩ 100 = 0 :=
  ⟨(C5_pressure_sign_amended ⟨"A", 50, 0⟩ ⟨"B", 0, 0⟩ 100).2.1
      (by norm_num) (by norm_num),
    (C5_pressure_sign_amended ⟨"A", 0, 0⟩ ⟨"B", 50, 0⟩ 100).1
      (by norm_num) (by norm_num),
    (C5_pressure_sign_amended ⟨"A", 100, 0⟩ ⟨"B", 0, 0⟩ 100).2.2
      (by rw [show |(0 : ℚ) - 100| = 100 from by rw [abs_sub_comm]; norm_num [abs_of_nonneg]])⟩

/-- C6: `run()` is translation invariant — shifting every input `x` by a
constant `c` shifts every output `x` by the same `c` (exactly, in the
rational model), for every graph, spacing, damping, pass count, initial
placement and every constant `c`, including negative and very large
ones. -/
theorem C6_run_translation_invariance (conn : String → List String)
    (node_size : ℚ × ℚ) (damp : ℚ) (passes : ℕ) (c : ℚ) (ns : List DNode) :
    run conn node_size damp passes (ns.map (shiftX c)) =
      (run conn node_size damp passes ns).map (shiftX c) :=
  run_shift conn node_size damp passes c ns

/-- C7: `enforce_placement` is idempotent; it never decreases any node's
`x` (and never touches ids or levels); and it leaves any node list whose
levels are already spaced at least `minSpacing` apart completely
unchanged. -/
theorem C7_enforce_placement_idempotent (s : ℚ) (ns : List DNode)
    (hs : 0 < s) :
    enforce_placement s (enforce_placement s ns) = enforce_placement s ns ∧
    List.Forall₂ (fun a b => b.data = a.data ∧ b.y = a.y ∧ a.x ≤ b.x)
      ns (enforce_placement s ns) ∧
    ((∀ y : ℚ, List.Chain' (fun a b => a.x + s ≤ b.x)
        (ns.filter (fun n => decide (n.y = y)))) →
      enforce_placement s ns = ns) :=
  ⟨enforce_placement_idem s hs ns, enforce_placement_forall₂ s ns,
    fun h => enforce_placement_of_spaced s (le_of_lt hs) ns h⟩

/-- Witness for C7 at the test scenario: nodes at `0, 50, 100` with
spacing `100`. -/
theorem C7_enforce_placement_idempotent_witness :
    (0 : ℚ) < 100 ∧
    (enforce_placement 100 (enforce_placement 100 wNodes) =
      enforce_placement 100 wNodes ∧
    List.Forall₂ (fun a b => b.data = a.data ∧ b.y = a.y ∧ a.x ≤ b.x)
      wNodes (enforce_placement 100 wNodes) ∧
    ((∀ y : ℚ, List.Chain' (fun a b => a.x + 100 ≤ b.x)
        (wNodes.filter (fun n => decide (n.y = y)))) →
      enforce_placement 100 wNodes = wNodes)) :=
  ⟨by norm_num,
    C7_enforce_placement_idempotent 100 wNodes (by norm_num)⟩

/-! ### Supporting lemmas: concrete color values -/

theorem colorEval10 : generateFamilyColor 10 = ("#CF3CDD") := by
  norm_num [generateFamilyColor, FAMILY_COLOR_PALETTE, hslToHex, ratMod,
    jsRound, byteToHex, hexDigitChar, abs_of_nonneg]
  decide

theorem colorEval11 : generateFamilyColor 11 = ("#BBDD3C") := by
  norm_num [generateFamilyColor, FAMILY_COLOR_PALETTE, hslToHex, ratMod,
    jsRound, byteToHex, hexDigitChar, abs_of_nonneg]
  decide

theorem colorEval12 : generateFamilyColor 12 = ("#3C8CDD") := by
  norm_num [generateFamilyColor, FAMILY_COLOR_PALETTE, hslToHex, ratMod,
    jsRound, byteToHex, hexDigitChar, abs_of_nonneg]
  decide

theorem colorEval13 : generateFamilyColor 13 = ("#DD3C5D") := by
  norm_num [generateFamilyColor, FAMILY_COLOR_PALETTE, hslToHex, ratMod,
    jsRound, byteToHex, hexDigitChar, abs_of_nonneg]
  decide

theorem colorEval14 : generateFamilyColor 14 = ("#3CDD49") := by
  norm_num [generateFamilyColor, FAMILY_COLOR_PALETTE, hslToHex, ratMod,
    jsRound, byteToHex, hexDigitChar, abs_of_nonneg]
  decide

theorem colorEval15 : generateFamilyColor 15 = ("#783CDD") := by
  norm_num [generateFamilyColor, FAMILY_COLOR_PALETTE, hslToHex, ratMod,
    jsRound, byteToHex, hexDigitChar, abs_of_nonneg]
  decide

theorem colorEval16 : generateFamilyColor 16 = ("#DDA73C") := by
  norm_num [generateFamilyColor, FAMILY_COLOR_PALETTE, hslToHex, ratMod,
    jsRound, byteToHex, hexDigitChar, abs_of_nonneg]
  decide

theorem colorEval17 : generateFamilyColor 17 = ("#3CDDD6") := by
  norm_num [generateFamilyColor, FAMILY_COLOR_PALETTE, hslToHex, ratMod,
    jsRound, byteToHex, hexDigitChar, abs_of_nonneg]
  decide

theorem colorEval18 : generateFamilyColor 18 = ("#DD3CB4") := by
  norm_num [generateFamilyColor, FAMILY_COLOR_PALETTE, hslToHex, ratMod,
    jsRound, byteToHex, hexDigitChar, abs_of_nonneg]
  decide

theorem colorEval19 : generateFamilyColor 19 = ("#86DD3C") := by
  norm_num [generateFamilyColor, FAMILY_COLOR_PALETTE, hslToHex, ratMod,
    jsRound, byteToHex, hexDigitChar, abs_of_nonneg]
  decide

theorem colorEval20 : generateFamilyColor 20 = ("#3C57DD") := by
  norm_num [generateFamilyColor, FAMILY_COLOR_PALETTE, hslToHex, ratMod,
    jsRound, byteToHex, hexDigitChar, abs_of_nonneg]
  decide

theorem colorEval21 : generateFamilyColor 21 = ("#DD503C") := by
  norm_num [generateFamilyColor, FAMILY_COLOR_PALETTE, hslToHex, ratMod,
    jsRound, byteToHex, hexDigitChar, abs_of_nonneg]
  decide

theorem colorEval22 : generateFamilyColor 22 = ("#3CDD7F") := by
  norm_num [generateFamilyColor, FAMILY_COLOR_PALETTE, hslToHex, ratMod,
    jsRound, byteToHex, hexDigitChar, abs_of_nonneg]
  decide

theorem colorEval23 : generateFamilyColor 23 = ("#AE3CDD") := by
  norm_num [generateFamilyColor, FAMILY_COLOR_PALETTE, hslToHex, ratMod,
    jsRound, byteToHex, hexDigitChar, abs_of_nonneg]
  decide

theorem colorEval24 : generateFamilyColor 24 = ("#DDDD3C") := by
  norm_num [generateFamilyColor, FAMILY_COLOR_PALETTE, hslToHex, ratMod,
    jsRound, byteToHex, hexDigitChar, abs_of_nonneg]
  decide

theorem colorEval25 : generateFamilyColor 25 = ("#3CAEDD") := by
  norm_num [generateFamilyColor, FAMILY_COLOR_PALETTE, hslToHex, ratMod,
    jsRound, byteToHex, hexDigitChar, abs_of_nonneg]
  decide

theorem colorEval26 : generateFamilyColor 26 = ("#DD3C7F") := by
  norm_num [generateFamilyColor, FAMILY_COLOR_PALETTE, hslToHex, ratMod,
    jsRound, byteToHex, hexDigitChar, abs_of_nonneg]
  decide

theorem colorEval27 : generateFamilyColor 27 = ("#50DD3C") := by
  norm_num [generateFamilyColor, FAMILY_COLOR_PALETTE, hslToHex, ratMod,
    jsRound, byteToHex, hexDigitChar, abs_of_nonneg]
  decide

theorem colorEval28 : generateFamilyColor 28 = ("#573CDD") := by
  norm_num [generateFamilyColor, FAMILY_COLOR_PALETTE, hslToHex, ratMod,
    jsRound, byteToHex, hexDigitChar, abs_of_nonneg]
  decide

theorem colorEval29 : generateFamilyColor 29 = ("#DD863C") := by
  norm_num [generateFamilyColor, FAMILY_COLOR_PALETTE, hslToHex, ratMod,
    jsRound, byteToHex, hexDigitChar, abs_of_nonneg]
  decide

theorem colorEval30 : generateFamilyColor 30 = ("#3CDDB4") := by
  norm_num [generateFamilyColor, FAMILY_COLOR_PALETTE, hslToHex, ratMod,
    jsRound, byteToHex, hexDigitChar, abs_of_nonneg]
  decide

theorem colorEval31 : generateFamilyColor 31 = ("#DD3CD6") := by
  norm_num [generateFamilyColor, FAMILY_COLOR_PALETTE, hslToHex, ratMod,
    jsRound, byteToHex, hexDigitChar, abs_of_nonneg]
  decide

theorem colorEval32 : generateFamilyColor 32 = ("#A7DD3C") := by
  norm_num [generateFamilyColor, FAMILY_COLOR_PALETTE, hslToHex, ratMod,
    jsRound, byteToHex, hexDigitChar, abs_of_nonneg]
  decide

theorem colorEval33 : generateFamilyColor 33 = ("#3C78DD") := by
  norm_num [generateFamilyColor, FAMILY_COLOR_PALETTE, hslToHex, ratMod,
    jsRound, byteToHex, hexDigitChar, abs_of_nonneg]
  decide

theorem colorEval34 : generateFamilyColor 34 = ("#DD3C49") := by
  norm_num [generateFamilyColor, FAMILY_COLOR_PALETTE, hslToHex, ratMod,
    jsRound, byteToHex, hexDigitChar, abs_of_nonneg]
  decide

theorem colorEval35 : generateFamilyColor 35 = ("#3CDD5D") := by
  norm_num [generateFamilyColor, FAMILY_COLOR_PALETTE, hslToHex, ratMod,
    jsRound, byteToHex, hexDigitChar, abs_of_nonneg]
  decide

theorem colorEval36 : generateFamilyColor 36 = ("#8C3CDD") := by
  norm_num [generateFamilyColor, FAMILY_COLOR_PALETTE, hslToHex, ratMod,
    jsRound, byteToHex, hexDigitChar, abs_of_nonneg]
  decide

theorem colorEval37 : generateFamilyColor 37 = ("#DDBB3C") := by
  norm_num [generateFamilyColor, FAMILY_COLOR_PALETTE, hslToHex, ratMod,
    jsRound, byteToHex, hexDigitChar, abs_of_nonneg]
  decide

theorem colorEval38 : generateFamilyColor 38 = ("#3CCFDD") := by
  norm_num [generateFamilyColor, FAMILY_COLOR_PALETTE, hslToHex, ratMod,
    jsRound, byteToHex, hexDigitChar, abs_of_nonneg]
  decide

theorem colorEval39 : generateFamilyColor 39 = ("#DD3CA0") := by
  norm_num [generateFamilyColor, FAMILY_COLOR_PALETTE, hslToHex, ratMod,
    jsRound, byteToHex, hexDigitChar, abs_of_nonneg]
  decide

theorem colorEval40 : generateFamilyColor 40 = ("#71DD3C") := by
  norm_num [generateFamilyColor, FAMILY_COLOR_PALETTE, hslToHex, ratMod,
    jsRound, byteToHex, hexDigitChar, abs_of_nonneg]
  decide

theorem colorEval41 : generateFamilyColor 41 = ("#3C43DD") := by
  norm_num [generateFamilyColor, FAMILY_COLOR_PALETTE, hslToHex, ratMod,
    jsRound, byteToHex, hexDigitChar, abs_of_nonneg]
  decide

theorem colorEval42 : generateFamilyColor 42 = ("#DD643C") := by
  norm_num [generateFamilyColor, FAMILY_COLOR_PALETTE, hslToHex, ratMod,
    jsRound, byteToHex, hexDigitChar, abs_of_nonneg]
  decide

theorem colorEval43 : generateFamilyColor 43 = ("#3CDD93") := by
  norm_num [generateFamilyColor, FAMILY_COLOR_PALETTE, hslToHex, ratMod,
    jsRound, byteToHex, hexDigitChar, abs_of_nonneg]
  decide

theorem colorEval44 : generateFamilyColor 44 = ("#C23CDD") := by
  norm_num [generateFamilyColor, FAMILY_COLOR_PALETTE, hslToHex, ratMod,
    jsRound, byteToHex, hexDigitChar, abs_of_nonneg]
  decide

theorem colorEval45 : generateFamilyColor 45 = ("#C8DD3C") := by
  norm_num [generateFamilyColor, FAMILY_COLOR_PALETTE, hslToHex, ratMod,
    jsRound, byteToHex, hexDigitChar, abs_of_nonneg]
  decide

theorem colorEval46 : generateFamilyColor 46 = ("#3C9ADD") := by
  norm_num [generateFamilyColor, FAMILY_COLOR_PALETTE, hslToHex, ratMod,
    jsRound, byteToHex, hexDigitChar, abs_of_nonneg]
  decide

theorem colorEval47 : generateFamilyColor 47 = ("#DD3C6B") := by
  norm_num [generateFamilyColor, FAMILY_COLOR_PALETTE, hslToHex, ratMod,
    jsRound, byteToHex, hexDigitChar, abs_of_nonneg]
  decide

theorem colorEval48 : generateFamilyColor 48 = ("#3CDD3C") := by
  norm_num [generateFamilyColor, FAMILY_COLOR_PALETTE, hslToHex, ratMod,
    jsRound, byteToHex, hexDigitChar, abs_of_nonneg]
  decide

theorem colorEval49 : generateFamilyColor 49 = ("#6B3CDD") := by
  norm_num [generateFamilyColor, FAMILY_COLOR_PALETTE, hslToHex, ratMod,
    jsRound, byteToHex, hexDigitChar, abs_of_nonneg]
  decide

theorem colorEval50 : generateFamilyColor 50 = ("#DD9A3C") := by
  norm_num [generateFamilyColor, FAMILY_COLOR_PALETTE, hslToHex, ratMod,
    jsRound, byteToHex, hexDigitChar, abs_of_nonneg]
  decide

theorem colorEval51 : generateFamilyColor 51 = ("#3CDDC8") := by
  norm_num [generateFamilyColor, FAMILY_COLOR_PALETTE, hslToHex, ratMod,
    jsRound, byteToHex, hexDigitChar, abs_of_nonneg]
  decide

theorem colorEval52 : generateFamilyColor 52 = ("#DD3CC2") := by
  norm_num [generateFamilyColor, FAMILY_COLOR_PALETTE, hslToHex, ratMod,
    jsRound, byteToHex, hexDigitChar, abs_of_nonneg]
  decide

theorem colorEval53 : generateFamilyColor 53 = ("#93DD3C") := by
  norm_num [generateFamilyColor, FAMILY_COLOR_PALETTE, hslToHex, ratMod,
    jsRound, byteToHex, hexDigitChar, abs_of_nonneg]
  decide

theorem colorEval54 : generateFamilyColor 54 = ("#3C64DD") := by
  norm_num [generateFamilyColor, FAMILY_COLOR_PALETTE, hslToHex, ratMod,
    jsRound, byteToHex, hexDigitChar, abs_of_nonneg]
  decide

theorem colorEval55 : generateFamilyColor 55 = ("#DD433C") := by
  norm_num [generateFamilyColor, FAMILY_COLOR_PALETTE, hslToHex, ratMod,
    jsRound, byteToHex, hexDigitChar, abs_of_nonneg]
  decide

theorem colorEval56 : generateFamilyColor 56 = ("#3CDD71") := by
  norm_num [generateFamilyColor, FAMILY_COLOR_PALETTE, hslToHex, ratMod,
    jsRound, byteToHex, hexDigitChar, abs_of_nonneg]
  decide

theorem colorEval57 : generateFamilyColor 57 = ("#A03CDD") := by
  norm_num [generateFamilyColor, FAMILY_COLOR_PALETTE, hslToHex, ratMod,
    jsRound, byteToHex, hexDigitChar, abs_of_nonneg]
  decide

theorem colorEval58 : generateFamilyColor 58 = ("#DDCF3C") := by
  norm_num [generateFamilyColor, FAMILY_COLOR_PALETTE, hslToHex, ratMod,
    jsRound, byteToHex, hexDigitChar, abs_of_nonneg]
  decide

theorem colorEval59 : generateFamilyColor 59 = ("#3CBBDD") := by
  norm_num [generateFamilyColor, FAMILY_COLOR_PALETTE, hslToHex, ratMod,
    jsRound, byteToHex, hexDigitChar, abs_of_nonneg]
  decide

theorem colorEval60 : generateFamilyColor 60 = ("#DD3C8C") := by
  norm_num [generateFamilyColor, FAMILY_COLOR_PALETTE, hslToHex, ratMod,
    jsRound, byteToHex, hexDigitChar, abs_of_nonneg]
  decide

theorem colorEval61 : generateFamilyColor 61 = ("#5DDD3C") := by
  norm_num [generateFamilyColor, FAMILY_COLOR_PALETTE, hslToHex, ratMod,
    jsRound, byteToHex, hexDigitChar, abs_of_nonneg]
  decide

theorem colorEval62 : generateFamilyColor 62 = ("#493CDD") := by
  norm_num [generateFamilyColor, FAMILY_COLOR_PALETTE, hslToHex, ratMod,
    jsRound, byteToHex, hexDigitChar, abs_of_nonneg]
  decide

theorem colorEval63 : generateFamilyColor 63 = ("#DD783C") := by
  norm_num [generateFamilyColor, FAMILY_COLOR_PALETTE, hslToHex, ratMod,
    jsRound, byteToHex, hexDigitChar, abs_of_nonneg]
  decide

theorem colorEval64 : generateFamilyColor 64 = ("#3CDDA7") := by
  norm_num [generateFamilyColor, FAMILY_COLOR_PALETTE, hslToHex, ratMod,
    jsRound, byteToHex, hexDigitChar, abs_of_nonneg]
  decide

theorem colorEval65 : generateFamilyColor 65 = ("#D63CDD") := by
  norm_num [generateFamilyColor, FAMILY_COLOR_PALETTE, hslToHex, ratMod,
    jsRound, byteToHex, hexDigitChar, abs_of_nonneg]
  decide

theorem colorEval66 : generateFamilyColor 66 = ("#B4DD3C") := by
  norm_num [generateFamilyColor, FAMILY_COLOR_PALETTE, hslToHex, ratMod,
    jsRound, byteToHex, hexDigitChar, abs_of_nonneg]
  decide

theorem colorEval67 : generateFamilyColor 67 = ("#3C86DD") := by
  norm_num [generateFamilyColor, FAMILY_COLOR_PALETTE, hslToHex, ratMod,
    jsRound, byteToHex, hexDigitChar, abs_of_nonneg]
  decide

theorem colorEval68 : generateFamilyColor 68 = ("#DD3C57") := by
  norm_num [generateFamilyColor, FAMILY_COLOR_PALETTE, hslToHex, ratMod,
    jsRound, byteToHex, hexDigitChar, abs_of_nonneg]
  decide

theorem colorEval69 : generateFamilyColor 69 = ("#3CDD50") := by
  norm_num [generateFamilyColor, FAMILY_COLOR_PALETTE, hslToHex, ratMod,
    jsRound, byteToHex, hexDigitChar, abs_of_nonneg]
  decide

theorem colorEval70 : generateFamilyColor 70 = ("#7F3CDD") := by
  norm_num [generateFamilyColor, FAMILY_COLOR_PALETTE, hslToHex, ratMod,
    jsRound, byteToHex, hexDigitChar, abs_of_nonneg]
  decide

theorem colorEval71 : generateFamilyColor 71 = ("#DDAE3C") := by
  norm_num [generateFamilyColor, FAMILY_COLOR_PALETTE, hslToHex, ratMod,
    jsRound, byteToHex, hexDigitChar, abs_of_nonneg]
  decide

theorem colorEval72 : generateFamilyColor 72 = ("#3CDDDD") := by
  norm_num [generateFamilyColor, FAMILY_COLOR_PALETTE, hslToHex, ratMod,
    jsRound, byteToHex, hexDigitChar, abs_of_nonneg]
  decide

theorem colorEval73 : generateFamilyColor 73 = ("#DD3CAE") := by
  norm_num [generateFamilyColor, FAMILY_COLOR_PALETTE, hslToHex, ratMod,
    jsRound, byteToHex, hexDigitChar, abs_of_nonneg]
  decide

theorem colorEval74 : generateFamilyColor 74 = ("#7FDD3C") := by
  norm_num [generateFamilyColor, FAMILY_COLOR_PALETTE, hslToHex, ratMod,
    jsRound, byteToHex, hexDigitChar, abs_of_nonneg]
  decide

theorem colorEval75 : generateFamilyColor 75 = ("#3C50DD") := by
  norm_num [generateFamilyColor, FAMILY_COLOR_PALETTE, hslToHex, ratMod,
    jsRound, byteToHex, hexDigitChar, abs_of_nonneg]
  decide

theorem colorEval76 : generateFamilyColor 76 = ("#DD573C") := by
  norm_num [generateFamilyColor, FAMILY_COLOR_PALETTE, hslToHex, ratMod,
    jsRound, byteToHex, hexDigitChar, abs_of_nonneg]
  decide

theorem colorEval77 : generateFamilyColor 77 = ("#3CDD86") := by
  norm_num [generateFamilyColor, FAMILY_COLOR_PALETTE, hslToHex, ratMod,
    jsRound, byteToHex, hexDigitChar, abs_of_nonneg]
  decide

theorem colorEval78 : generateFamilyColor 78 = ("#B43CDD") := by
  norm_num [generateFamilyColor, FAMILY_COLOR_PALETTE, hslToHex, ratMod,
    jsRound, byteToHex, hexDigitChar, abs_of_nonneg]
  decide

theorem colorEval79 : generateFamilyColor 79 = ("#D6DD3C") := by
  norm_num [generateFamilyColor, FAMILY_COLOR_PALETTE, hslToHex, ratMod,
    jsRound, byteToHex, hexDigitChar, abs_of_nonneg]
  decide

theorem colorEval80 : generateFamilyColor 80 = ("#3CA7DD") := by
  norm_num [generateFamilyColor, FAMILY_COLOR_PALETTE, hslToHex, ratMod,
    jsRound, byteToHex, hexDigitChar, abs_of_nonneg]
  decide

theorem colorEval81 : generateFamilyColor 81 = ("#DD3C78") := by
  norm_num [generateFamilyColor, FAMILY_COLOR_PALETTE, hslToHex, ratMod,
    jsRound, byteToHex, hexDigitChar, abs_of_nonneg]
  decide

theorem colorEval82 : generateFamilyColor 82 = ("#49DD3C") := by
  norm_num [generateFamilyColor, FAMILY_COLOR_PALETTE, hslToHex, ratMod,
    jsRound, byteToHex, hexDigitChar, abs_of_nonneg]
  decide

theorem colorEval83 : generateFamilyColor 83 = ("#5D3CDD") := by
  norm_num [generateFamilyColor, FAMILY_COLOR_PALETTE, hslToHex, ratMod,
    jsRound, byteToHex, hexDigitChar, abs_of_nonneg]
  decide

theorem colorEval84 : generateFamilyColor 84 = ("#DD8C3C") := by
  norm_num [generateFamilyColor, FAMILY_COLOR_PALETTE, hslToHex, ratMod,
    jsRound, byteToHex, hexDigitChar, abs_of_nonneg]
  decide

theorem colorEval85 : generateFamilyColor 85 = ("#3CDDBB") := by
  norm_num [generateFamilyColor, FAMILY_COLOR_PALETTE, hslToHex, ratMod,
    jsRound, byteToHex, hexDigitChar, abs_of_nonneg]
  decide

theorem colorEval86 : generateFamilyColor 86 = ("#DD3CCF") := by
  norm_num [generateFamilyColor, FAMILY_COLOR_PALETTE, hslToHex, ratMod,
    jsRound, byteToHex, hexDigitChar, abs_of_nonneg]
  decide

theorem colorEval87 : generateFamilyColor 87 = ("#A0DD3C") := by
  norm_num [generateFamilyColor, FAMILY_COLOR_PALETTE, hslToHex, ratMod,
    jsRound, byteToHex, hexDigitChar, abs_of_nonneg]
  decide

theorem colorEval88 : generateFamilyColor 88 = ("#3C71DD") := by
  norm_num [generateFamilyColor, FAMILY_COLOR_PALETTE, hslToHex, ratMod,
    jsRound, byteToHex, hexDigitChar, abs_of_nonneg]
  decide

theorem colorEval89 : generateFamilyColor 89 = ("#DD3C43") := by
  norm_num [generateFamilyColor, FAMILY_COLOR_PALETTE, hslToHex, ratMod,
    jsRound, byteToHex, hexDigitChar, abs_of_nonneg]
  decide

theorem colorEval90 : generateFamilyColor 90 = ("#3CDD64") := by
  norm_num [generateFamilyColor, FAMILY_COLOR_PALETTE, hslToHex, ratMod,
    jsRound, byteToHex, hexDigitChar, abs_of_nonneg]
  decide

theorem colorEval91 : generateFamilyColor 91 = ("#933CDD") := by
  norm_num [generateFamilyColor, FAMILY_COLOR_PALETTE, hslToHex, ratMod,
    jsRound, byteToHex, hexDigitChar, abs_of_nonneg]
  decide

theorem colorEval92 : generateFamilyColor 92 = ("#DDC23C") := by
  norm_num [generateFamilyColor, FAMILY_COLOR_PALETTE, hslToHex, ratMod,
    jsRound, byteToHex, hexDigitChar, abs_of_nonneg]
  decide

theorem colorEval93 : generateFamilyColor 93 = ("#3CC8DD") := by
  norm_num [generateFamilyColor, FAMILY_COLOR_PALETTE, hslToHex, ratMod,
    jsRound, byteToHex, hexDigitChar, abs_of_nonneg]
  decide

theorem colorEval94 : generateFamilyColor 94 = ("#DD3C9A") := by
  norm_num [generateFamilyColor, FAMILY_COLOR_PALETTE, hslToHex, ratMod,
    jsRound, byteToHex, hexDigitChar, abs_of_nonneg]
  decide

theorem colorEval95 : generateFamilyColor 95 = ("#6BDD3C") := by
  norm_num [generateFamilyColor, FAMILY_COLOR_PALETTE, hslToHex, ratMod,
    jsRound, byteToHex, hexDigitChar, abs_of_nonneg]
  decide

theorem colorEval96 : generateFamilyColor 96 = ("#3C3CDD") := by
  norm_num [generateFamilyColor, FAMILY_COLOR_PALETTE, hslToHex, ratMod,
    jsRound, byteToHex, hexDigitChar, abs_of_nonneg]
  decide

theorem colorEval97 : generateFamilyColor 97 = ("#DD6B3C") := by
  norm_num [generateFamilyColor, FAMILY_COLOR_PALETTE, hslToHex, ratMod,
    jsRound, byteToHex, hexDigitChar, abs_of_nonneg]
  decide

theorem colorEval98 : generateFamilyColor 98 = ("#3CDD9A") := by
  norm_num [generateFamilyColor, FAMILY_COLOR_PALETTE, hslToHex, ratMod,
    jsRound, byteToHex, hexDigitChar, abs_of_nonneg]
  decide

theorem colorEval99 : generateFamilyColor 99 = ("#C83CDD") := by
  norm_num [generateFamilyColor, FAMILY_COLOR_PALETTE, hslToHex, ratMod,
    jsRound, byteToHex, hexDigitChar, abs_of_nonneg]
  decide

/-- The first hundred colors, as literal strings. -/
theorem colors_first_hundred :
    (List.range 100).map generateFamilyColor =
  ["#8B5CF6", "#10B981", "#3B82F6", "#F59E0B", "#EF4444",
   "#14B8A6", "#F97316", "#EC4899", "#6366F1", "#84CC16",
   "#CF3CDD", "#BBDD3C", "#3C8CDD", "#DD3C5D", "#3CDD49",
   "#783CDD", "#DDA73C", "#3CDDD6", "#DD3CB4", "#86DD3C",
   "#3C57DD", "#DD503C", "#3CDD7F", "#AE3CDD", "#DDDD3C",
   "#3CAEDD", "#DD3C7F", "#50DD3C", "#573CDD", "#DD863C",
   "#3CDDB4", "#DD3CD6", "#A7DD3C", "#3C78DD", "#DD3C49",
   "#3CDD5D", "#8C3CDD", "#DDBB3C", "#3CCFDD", "#DD3CA0",
   "#71DD3C", "#3C43DD", "#DD643C", "#3CDD93", "#C23CDD",
   "#C8DD3C", "#3C9ADD", "#DD3C6B", "#3CDD3C", "#6B3CDD",
   "#DD9A3C", "#3CDDC8", "#DD3CC2", "#93DD3C", "#3C64DD",
   "#DD433C", "#3CDD71", "#A03CDD", "#DDCF3C", "#3CBBDD",
   "#DD3C8C", "#5DDD3C", "#493CDD", "#DD783C", "#3CDDA7",
   "#D63CDD", "#B4DD3C", "#3C86DD", "#DD3C57", "#3CDD50",
   "#7F3CDD", "#DDAE3C", "#3CDDDD", "#DD3CAE", "#7FDD3C",
   "#3C50DD", "#DD573C", "#3CDD86", "#B43CDD", "#D6DD3C",
   "#3CA7DD", "#DD3C78", "#49DD3C", "#5D3CDD", "#DD8C3C",
   "#3CDDBB", "#DD3CCF", "#A0DD3C", "#3C71DD", "#DD3C43",
   "#3CDD64", "#933CDD", "#DDC23C", "#3CC8DD", "#DD3C9A",
   "#6BDD3C", "#3C3CDD", "#DD6B3C", "#3CDD9A", "#C83CDD"] := by
  rw [show List.range 100 = (List.range 10) ++ (List.range' 10 90) from by decide]
  rw [List.map_append]
  rw [show (List.range 10).map generateFamilyColor =
    FAMILY_COLOR_PALETTE from by decide]
  rw [show List.range' 10 90 = [10, 11, 12, 13, 14, 15, 16, 17, 18, 19, 20, 21, 22, 23, 24, 25, 26, 27, 28, 29, 30, 31, 32, 33, 34, 35, 36, 37, 38, 39, 40, 41, 42, 43, 44, 45, 46, 47, 48, 49, 50, 51, 52, 53, 54, 55, 56, 57, 58, 59, 60, 61, 62, 63, 64, 65, 66, 67, 68, 69, 70, 71, 72, 73, 74, 75, 76, 77, 78, 79, 80, 81, 82, 83, 84, 85, 86, 87, 88, 89, 90, 91, 92, 93, 94, 95, 96, 97, 98, 99] from by decide]
  simp only [List.map_cons, List.map_nil,
    colorEval10, colorEval11, colorEval12, colorEval13, colorEval14, colorEval15, colorEval16, colorEval17, colorEval18, colorEval19, colorEval20, colorEval21, colorEval22, colorEval23, colorEval24, colorEval25, colorEval26, colorEval27, colorEval28, colorEval29, colorEval30, colorEval31, colorEval32, colorEval33, colorEval34, colorEval35, colorEval36, colorEval37, colorEval38, colorEval39, colorEval40, colorEval41, colorEval42, colorEval43, colorEval44, colorEval45, colorEval46, colorEval47, colorEval48, colorEval49, colorEval50, colorEval51, colorEval52, colorEval53, colorEval54, colorEval55, colorEval56, colorEval57, colorEval58, colorEval59, colorEval60, colorEval61, colorEval62, colorEval63, colorEval64, colorEval65, colorEval66, colorEval67, colorEval68, colorEval69, colorEval70, colorEval71, colorEval72, colorEval73, colorEval74, colorEval75, colorEval76, colorEval77, colorEval78, colorEval79, colorEval80, colorEval81, colorEval82, colorEval83, colorEval84, colorEval85, colorEval86, colorEval87, colorEval88, colorEval89, colorEval90, colorEval91, colorEval92, colorEval93, colorEval94, colorEval95, colorEval96, colorEval97, colorEval98, colorEval99]
  decide

/-! ### Claim theorems: color generator -/

/-- C9: the family color function is a pure deterministic map from index
to hex color string — indices `0..9` return the curated palette by
position, indices `10` and above use hue `(index * 137.5) mod 360` with
fixed saturation and lightness converted to hex RGB, and all colors for
indices in `[0, 100)` are pairwise distinct. -/
theorem C9_color_determinism :
    (∀ i : ℕ, i < 10 → generateFamilyColor i = FAMILY_COLOR_PALETTE.getD i "") ∧
    (∀ i : ℕ, 10 ≤ i →
      generateFamilyColor i = hslToHex (ratMod ((i : ℚ) * 137.5) 360) 70 55) ∧
    (∀ i j : ℕ, i < 100 → j < 100 → i ≠ j →
      generateFamilyColor i ≠ generateFamilyColor j) := by
  refine ⟨?_, ?_, ?_⟩
  · intro i hi
    simp only [generateFamilyColor]
    rw [if_pos (show i < FAMILY_COLOR_PALETTE.length by
      simpa [FAMILY_COLOR_PALETTE] using hi)]
  · intro i hi
    simp only [generateFamilyColor]
    rw [if_neg (show ¬ i < FAMILY_COLOR_PALETTE.length by
      simp only [FAMILY_COLOR_PALETTE, List.length_cons, List.length_nil]
      omega)]
  · have hnd : ((List.range 100).map generateFamilyColor).Nodup := by
      rw [colors_first_hundred]
      decide
    intro i j hi hj hij hcontra
    apply hij
    have hlen : ((List.range 100).map generateFamilyColor).length = 100 := by
      simp
    have hgi : ((List.range 100).map generateFamilyColor).get
        ⟨i, by rw [hlen]; exact hi⟩ = generateFamilyColor i := by
      simp
    have hgj : ((List.range 100).map generateFamilyColor).get
        ⟨j, by rw [hlen]; exact hj⟩ = generateFamilyColor j := by
      simp
    have := (List.Nodup.get_inj_iff hnd).mp
      (show ((List.range 100).map generateFamilyColor).get
          ⟨i, by rw [hlen]; exact hi⟩ =
        ((List.range 100).map generateFamilyColor).get
          ⟨j, by rw [hlen]; exact hj⟩ by rw [hgi, hgj]; exact hcontra)
    simpa using this

/-- Witness for C9: palette position `0`, formula at index `10`, and
distinctness of colors `1` and `2`. -/
theorem C9_color_determinism_witness :
    ((0 : ℕ) < 10 ∧ generateFamilyColor 0 = FAMILY_COLOR_PALETTE.getD 0 "") ∧
    ((10 : ℕ) ≤ 10 ∧ generateFamilyColor 10 =
      hslToHex (ratMod ((10 : ℚ) * 137.5) 360) 70 55) ∧
    ((1 : ℕ) < 100 ∧ (2 : ℕ) < 100 ∧ (1 : ℕ) ≠ 2 ∧
      generateFamilyColor 1 ≠ generateFamilyColor 2) :=
  ⟨⟨by norm_num, C9_color_determinism.1 0 (by norm_num)⟩,
   ⟨le_refl 10, C9_color_determinism.2.1 10 (le_refl 10)⟩,
   ⟨by norm_num, by norm_num, by norm_num,
     C9_color_determinism.2.2 1 2 (by norm_num) (by norm_num) (by norm_num)⟩⟩

/-! ### Claim theorems: family detection, intermarriage scenario -/

/-- C2: in the intermarriage scenario (root `Y` with child `B`, root `A`
with child `C`, a union of `B` and `C` producing child `D`),
`detectFamilies` puts `B`, `C` and `D` each in exactly the two families
of `Y` and of `A`, in family-creation order. -/
theorem C2_intermarriage_dual_membership :
    (detectFamilies interData).families.map (·.id) =
      ["family_mem_1", "family_mem_3"] ∧
    assocFind (detectFamilies interData).memberToFamilies ("mem_2") =
      some ["family_mem_1", "family_mem_3"] ∧
    assocFind (detectFamilies interData).memberToFamilies ("mem_4") =
      some ["family_mem_1", "family_mem_3"] ∧
    assocFind (detectFamilies interData).memberToFamilies ("mem_5") =
      some ["family_mem_1", "family_mem_3"] := by
  refine ⟨?_, ?_, ?_, ?_⟩ <;> decide

/-! ### Supporting lemmas: breadth-first traversal termination -/

theorem flatMap_length_le {α β} (l : List α) (f : α → List β) (K : ℕ)
    (h : ∀ a ∈ l, (f a).length ≤ K) :
    (l.flatMap f).length ≤ l.length * K := by
  induction l with
  | nil => simp
  | cons a t ih =>
    simp only [List.flatMap_cons, List.length_append, List.length_cons]
    have h1 := h a (List.mem_cons_self _ _)
    have h2 := ih (fun a ha => h a (List.mem_cons_of_mem _ ha))
    calc (f a).length + (t.flatMap f).length ≤ K + t.length * K := by omega
    _ = (t.length + 1) * K := by ring

theorem getUnionsForMember_length_le (d : FamilyData) (m : String) :
    (getUnionsForMember d m).length ≤ d.links.length :=
  List.length_filterMap_le _ _

theorem getChildrenOfUnion_length_le (d : FamilyData) (u : String) :
    (getChildrenOfUnion d u).length ≤ d.links.length :=
  List.length_filterMap_le _ _

theorem mem_getChildrenOfUnion_targets (d : FamilyData) (u c : String)
    (h : c ∈ getChildrenOfUnion d u) : c ∈ d.links.map (·.2) := by
  obtain ⟨p, hp, hpc⟩ := List.mem_filterMap.mp h
  have hpc' : p.2 = c := by
    split at hpc
    · injection hpc
    · cases hpc
  exact hpc' ▸ List.mem_map_of_mem _ hp

theorem descKids_length_le (d : FamilyData) (m : String)
    (v : List String) :
    (descKids d m v).length ≤ d.links.length * d.links.length := by
  unfold descKids
  calc ((getUnionsForMember d m).flatMap _).length
      ≤ (getUnionsForMember d m).length * d.links.length := by
        refine flatMap_length_le _ _ _ (fun u _ => ?_)
        exact le_trans (List.length_filter_le _ _)
          (getChildrenOfUnion_length_le d u)
    _ ≤ d.links.length * d.links.length :=
        Nat.mul_le_mul_right _ (getUnionsForMember_length_le d m)

theorem descKids_subset_targets (d : FamilyData) (m : String)
    (v : List String) (c : String) (h : c ∈ descKids d m v) :
    c ∈ d.links.map (·.2) := by
  obtain ⟨u, _, hc⟩ := List.mem_flatMap.mp h
  exact mem_getChildrenOfUnion_targets d u c (List.mem_of_mem_filter hc)

theorem descKidsPatri_length_le (d : FamilyData) (m : String)
    (v : List String) :
    (descKidsPatri d m v).length ≤ d.links.length * d.links.length := by
  unfold descKidsPatri
  calc ((getUnionsForMember d m).flatMap _).length
      ≤ (getUnionsForMember d m).length * d.links.length := by
        refine flatMap_length_le _ _ _ (fun u _ => ?_)
        split
        · exact le_trans (List.length_filter_le _ _)
            (getChildrenOfUnion_length_le d u)
        · simp
    _ ≤ d.links.length * d.links.length :=
        Nat.mul_le_mul_right _ (getUnionsForMember_length_le d m)

theorem descKidsPatri_subset_targets (d : FamilyData) (m : String)
    (v : List String) (c : String) (h : c ∈ descKidsPatri d m v) :
    c ∈ d.links.map (·.2) := by
  obtain ⟨u, _, hc⟩ := List.mem_flatMap.mp h
  rcases hif : isPersonFatherInUnion d m (parseUnionId u) with _ | _ <;>
    rw [hif] at hc
  · cases hc
  · exact mem_getChildrenOfUnion_targets d u c (List.mem_of_mem_filter hc)

/-- The visited set makes the fueled traversal complete: with enough
fuel the queue always empties.  `cands` is any pool containing every id
the kids function can emit; each visit enqueues at most `K` children. -/
theorem bfsAux_isSome (kids : String → List String → List String)
    (cands : List String) (K : ℕ)
    (hlen : ∀ m v, (kids m v).length ≤ K)
    (hsub : ∀ m v c, c ∈ kids m v → c ∈ cands) :
    ∀ (fuel : ℕ) (queue visited mem : List String),
      (∀ q ∈ queue, q ∈ cands) →
      (K + 1) * (cands.toFinset.filter (fun c => c ∉ visited)).card +
        queue.length ≤ fuel →
      (bfsAux kids fuel queue visited mem).isSome = true := by
  intro fuel
  induction fuel with
  | zero =>
    intro queue visited mem _ hb
    cases queue with
    | nil => rfl
    | cons m rest => simp at hb
  | succ f ih =>
    intro queue visited mem hq hb
    cases queue with
    | nil => rfl
    | cons m rest =>
      by_cases hm : m ∈ visited
      · show (bfsAux kids (f + 1) (m :: rest) visited mem).isSome = true
        rw [show bfsAux kids (f + 1) (m :: rest) visited mem =
          bfsAux kids f rest visited mem from by rw [bfsAux, if_pos hm]]
        refine ih rest visited mem
          (fun q hq' => hq q (List.mem_cons_of_mem _ hq')) ?_
        simp only [List.length_cons] at hb
        omega
      · show (bfsAux kids (f + 1) (m :: rest) visited mem).isSome = true
        rw [show bfsAux kids (f + 1) (m :: rest) visited mem =
          bfsAux kids f (rest ++ kids m (m :: visited)) (m :: visited)
            (pushIfAbsent mem m) from by rw [bfsAux, if_neg hm]]
        have hmA : m ∈ cands.toFinset.filter (fun c => c ∉ visited) :=
          Finset.mem_filter.mpr
            ⟨List.mem_toFinset.mpr (hq m (List.mem_cons_self _ _)), hm⟩
        have herase : cands.toFinset.filter (fun c => c ∉ (m :: visited)) =
            (cands.toFinset.filter (fun c => c ∉ visited)).erase m := by
          ext c
          simp only [Finset.mem_filter, Finset.mem_erase, List.mem_cons]
          tauto
        have hcard : (cands.toFinset.filter
            (fun c => c ∉ (m :: visited))).card =
            (cands.toFinset.filter (fun c => c ∉ visited)).card - 1 := by
          rw [herase]
          exact Finset.card_erase_of_mem hmA
        have hpos : 1 ≤ (cands.toFinset.filter
            (fun c => c ∉ visited)).card :=
          Finset.card_pos.mpr ⟨m, hmA⟩
        refine ih _ _ _ ?_ ?_
        · intro q hq'
          rcases List.mem_append.mp hq' with h' | h'
          · exact hq q (List.mem_cons_of_mem _ h')
          · exact hsub m (m :: visited) q h'
        · rw [hcard, List.length_append]
          have hkids := hlen m (m :: visited)
          have hexp : (K + 1) *
              (cands.toFinset.filter (fun c => c ∉ visited)).card =
              (K + 1) * ((cands.toFinset.filter
                (fun c => c ∉ visited)).card - 1) + (K + 1) := by
            have h1 : (cands.toFinset.filter
                (fun c => c ∉ visited)).card - 1 + 1 =
                (cands.toFinset.filter (fun c => c ∉ visited)).card :=
              Nat.succ_pred_eq_of_pos hpos
            calc (K + 1) * (cands.toFinset.filter
                (fun c => c ∉ visited)).card =
                (K + 1) * ((cands.toFinset.filter
                  (fun c => c ∉ visited)).card - 1 + 1) := by rw [h1]
            _ = _ := by ring
          simp only [List.length_cons] at hb
          omega

/-- Fuel produced by `fuelFor` suffices for the first revision's
breadth-first descendant traversal, on every input and from every root. -/
theorem assignDescendantsAux_isSome (d : FamilyData) (root : String) :
    (bfsAux (descKids d) (fuelFor d) [root] [] []).isSome = true := by
  refine bfsAux_isSome (descKids d) (root :: d.links.map (·.2))
    (d.links.length * d.links.length)
    (fun m v => descKids_length_le d m v)
    (fun m v c hc =>
      List.mem_cons_of_mem _ (descKids_subset_targets d m v c hc))
    (fuelFor d) [root] [] []
    (fun q hq => by
      rw [List.mem_singleton.mp hq]
      exact List.mem_cons_self _ _) ?_
  have hcard : ((root :: d.links.map (·.2)).toFinset.filter
      (fun c => c ∉ ([] : List String))).card ≤ d.links.length + 1 := by
    calc ((root :: d.links.map (·.2)).toFinset.filter
        (fun c => c ∉ ([] : List String))).card
        ≤ (root :: d.links.map (·.2)).toFinset.card :=
          Finset.card_filter_le _ _
      _ ≤ (root :: d.links.map (·.2)).length := List.toFinset_card_le _
      _ = d.links.length + 1 := by simp
  show _ + _ ≤ (d.links.length * d.links.length + 1) *
    (d.links.length + 2) + 2
  have h1 := Nat.mul_le_mul_left
    (d.links.length * d.links.length + 1) hcard
  have h2 : (d.links.length * d.links.length + 1) * (d.links.length + 1) ≤
      (d.links.length * d.links.length + 1) * (d.links.length + 2) :=
    Nat.mul_le_mul_left _ (by omega)
  simp only [List.length_cons, List.length_nil]
  omega

/-- The same fuel suffices for the second revision's patrilineal
traversal. -/
theorem assignDescendantsPatriAux_isSome (d : FamilyData) (root : String) :
    (bfsAux (descKidsPatri d) (fuelFor d) [root] [] []).isSome = true := by
  refine bfsAux_isSome (descKidsPatri d) (root :: d.links.map (·.2))
    (d.links.length * d.links.length)
    (fun m v => descKidsPatri_length_le d m v)
    (fun m v c hc =>
      List.mem_cons_of_mem _ (descKidsPatri_subset_targets d m v c hc))
    (fuelFor d) [root] [] []
    (fun q hq => by
      rw [List.mem_singleton.mp hq]
      exact List.mem_cons_self _ _) ?_
  have hcard : ((root :: d.links.map (·.2)).toFinset.filter
      (fun c => c ∉ ([] : List String))).card ≤ d.links.length + 1 := by
    calc ((root :: d.links.map (·.2)).toFinset.filter
        (fun c => c ∉ ([] : List String))).card
        ≤ (root :: d.links.map (·.2)).toFinset.card :=
          Finset.card_filter_le _ _
      _ ≤ (root :: d.links.map (·.2)).length := List.toFinset_card_le _
      _ = d.links.length + 1 := by simp
  show _ + _ ≤ (d.links.length * d.links.length + 1) *
    (d.links.length + 2) + 2
  have h1 := Nat.mul_le_mul_left
    (d.links.length * d.links.length + 1) hcard
  have h2 : (d.links.length * d.links.length + 1) * (d.links.length + 1) ≤
      (d.links.length * d.links.length + 1) * (d.links.length + 2) :=
    Nat.mul_le_mul_left _ (by omega)
  simp only [List.length_cons, List.length_nil]
  omega

/-- C3: `detectFamilies` terminates on every input edge list and member
table — the fueled breadth-first traversals (both revisions) always
complete within the statically computed fuel thanks to the visited set,
and the concrete cyclic graph (a union of `mem_1` producing `mem_2` and
a union of `mem_2` producing `mem_1`) still yields one family covering
both members. -/
theorem C3_detectFamilies_terminates :
    (∀ (d : FamilyData) (root : String),
      (bfsAux (descKids d) (fuelFor d) [root] [] []).isSome = true) ∧
    (∀ (d : FamilyData) (root : String),
      (bfsAux (descKidsPatri d) (fuelFor d) [root] [] []).isSome = true) ∧
    (detectFamilies cycData).families.map
      (fun f => (f.rootMemberId, f.memberCount)) = [("mem_1", 2)] :=
  ⟨assignDescendantsAux_isSome, assignDescendantsPatriAux_isSome, by decide⟩

/-! ### Claim theorems: root discovery -/

theorem mem_buildChildrenSet (links : List (String × String)) (x : String) :
    x ∈ buildChildrenSet links ↔
      ∃ p ∈ links, (leadsWith uPre p.1 ∧ ¬ leadsWith uPre p.2) ∧ x = p.2 := by
  unfold buildChildrenSet
  rw [foldl_mem_iff _
    (fun (p : String × String) x =>
      (leadsWith uPre p.1 ∧ ¬ leadsWith uPre p.2) ∧ x = p.2)
    (fun acc b x' => by
      by_cases hc : leadsWith uPre b.1 ∧ ¬ leadsWith uPre b.2
      · rw [if_pos hc, mem_pushIfAbsent]
        tauto
      · rw [if_neg hc]
        tauto) links [] x]
  simp

theorem isChildTarget_iff (d : FamilyData) (id : String) :
    isChildTarget d id = true ↔ id ∈ buildChildrenSet d.links := by
  rw [mem_buildChildrenSet]
  unfold isChildTarget
  rw [List.any_eq_true]
  constructor
  · rintro ⟨p, hp, hb⟩
    simp only [Bool.and_eq_true, Bool.not_eq_true', decide_eq_true_eq] at hb
    exact ⟨p, hp, ⟨hb.1.1, by simp [hb.1.2]⟩, hb.2.symm⟩
  · rintro ⟨p, hp, ⟨h1, h2⟩, h3⟩
    refine ⟨p, hp, ?_⟩
    simp only [Bool.and_eq_true, Bool.not_eq_true', decide_eq_true_eq]
    exact ⟨⟨h1, by simpa using h2⟩, h3.symm⟩

/-- C4 counterexample: with every member flagged as a spouse and a start
id absent from the member table, root discovery returns no roots at all
— the designated start person is NOT used as the sole root, contrary to
the claim. -/
theorem C4_root_fallback_counterexample :
    noRootData.members ≠ [] ∧ naturalRoots noRootData = [] ∧
    findRootNodes noRootData = [] ∧
    noRootData.start = ("mem_9") ∧
    ("mem_9") ∉ findRootNodes noRootData := by
  refine ⟨?_, ?_, ?_, ?_, ?_⟩ <;> decide

/-- C4 (amended): a person is a natural root iff they never appear as
the target of a `union → person` edge and are not flagged `is_spouse`;
when this yields zero roots but the member table is non-empty, the
designated start person is used as the sole root provided its id is
non-empty and present in the member table — otherwise the root list is
empty.  No exception is raised in any case (the function is total). -/
theorem C4_root_discovery_amended (d : FamilyData) :
    findRootNodes d = rootDiscoverySpec d := by
  have hfilt : (memberKeys d).filter
      (fun id => decide (id ∉ buildChildrenSet d.links) &&
        ! isSpouseFlag d id) = naturalRoots d := by
    unfold naturalRoots
    refine List.filter_congr ?_
    intro id _
    have hb : decide (id ∉ buildChildrenSet d.links) =
        ! isChildTarget d id := by
      by_cases h : id ∈ buildChildrenSet d.links
      · have h1 : isChildTarget d id = true := (isChildTarget_iff d id).mpr h
        simp [h, h1]
      · have h1 : isChildTarget d id = false := by
          rw [Bool.eq_false_iff]
          exact fun hh => h ((isChildTarget_iff d id).mp hh)
        simp [h, h1]
    rw [hb]
  simp only [findRootNodes]
  rw [hfilt]
  unfold rootDiscoverySpec
  by_cases hnat : naturalRoots d = []
  · rw [hnat]
    by_cases hm : d.members = []
    · simp [hm]
    · simp [hm]
  · simp [hnat]

/-! ### Claim theorems: default active families -/

/-- C8 counterexample: the claim says a supplied current person with at
least one membership gets exactly their family set; but the code treats
the (falsy) empty-string id as absent, returning ALL family ids even
though the empty-string key has a non-empty membership list. -/
theorem C8_default_families_counterexample :
    assocFind [("", ["family_mem_3"])] "" = some ["family_mem_3"] ∧
    getDefaultActiveFamilies oneFamily [("", ["family_mem_3"])]
      (some ("")) = ["family_mem_1"] ∧
    getDefaultActiveFamilies oneFamily [("", ["family_mem_3"])]
      (some ("")) ≠ ["family_mem_3"] := by
  refine ⟨?_, ?_, ?_⟩ <;> decide

/-- C8 (amended): when a NON-EMPTY current person id is supplied and has
at least one family membership, exactly that set of family ids is
returned; in every other case (no current person, empty-string id, no
entry, or an empty membership list) the set of ALL family ids is
returned. -/
theorem C8_default_families_amended (families : List Family)
    (m2f : List (String × List String)) (id : String)
    (fams : List String) :
    (id ≠ "" → assocFind m2f id = some fams → fams ≠ [] →
      getDefaultActiveFamilies families m2f (some id) = mkSet fams) ∧
    (getDefaultActiveFamilies families m2f none =
      mkSet (families.map (·.id))) ∧
    (assocFind m2f id = none →
      getDefaultActiveFamilies families m2f (some id) =
        mkSet (families.map (·.id))) ∧
    (assocFind m2f id = some [] →
      getDefaultActiveFamilies families m2f (some id) =
        mkSet (families.map (·.id))) ∧
    (getDefaultActiveFamilies families m2f (some ("")) =
      mkSet (families.map (·.id))) := by
  refine ⟨?_, rfl, ?_, ?_, ?_⟩
  · intro h1 h2 h3
    simp only [getDefaultActiveFamilies]
    rw [if_pos h1, h2]
    show (if fams ≠ [] then mkSet fams else _) = mkSet fams
    rw [if_pos h3]
  · intro h
    simp only [getDefaultActiveFamilies]
    by_cases h1 : id = ""
    · rw [if_neg (by simp [h1])]
    · rw [if_pos h1, h]
  · intro h
    simp only [getDefaultActiveFamilies]
    by_cases h1 : id = ""
    · rw [if_neg (by simp [h1])]
    · rw [if_pos h1, h]
      show (if ([] : List String) ≠ [] then _ else
        mkSet (families.map (·.id))) = mkSet (families.map (·.id))
      rw [if_neg (by simp)]
  · simp only [getDefaultActiveFamilies]
    rw [if_neg (by simp)]

/-- Witness for the amended C8 at the repository's test scenario:
`mem_2` belongs to both families and gets exactly that pair. -/
theorem C8_default_families_amended_witness :
    ("mem_2" : String) ≠ "" ∧
    assocFind [("mem_1", ["family_mem_1"]),
      ("mem_2", ["family_mem_1", "family_mem_3"]),
      ("mem_3", ["family_mem_3"])] ("mem_2") =
      some ["family_mem_1", "family_mem_3"] ∧
    (["family_mem_1", "family_mem_3"] : List String) ≠ [] ∧
    getDefaultActiveFamilies twoFamilies
      [("mem_1", ["family_mem_1"]),
       ("mem_2", ["family_mem_1", "family_mem_3"]),
       ("mem_3", ["family_mem_3"])] (some ("mem_2")) =
      mkSet ["family_mem_1", "family_mem_3"] :=
  ⟨by decide, by decide, by decide,
    (C8_default_families_amended twoFamilies
      [("mem_1", ["family_mem_1"]),
       ("mem_2", ["family_mem_1", "family_mem_3"]),
       ("mem_3", ["family_mem_3"])] "mem_2"
      ["family_mem_1", "family_mem_3"]).1
      (by decide) (by decide) (by decide)⟩

/-! ### Claim theorems: spouse assignment -/

theorem mem_partnerFold (d : FamilyData) (m u : String) (acc : List String)
    (x : String) :
    x ∈ (parseUnionId u).foldl (fun acc p =>
        if p = m ∨ p = "0" ∨ (memberFind d p).isNone then acc
        else pushIfAbsent acc p) acc ↔
      x ∈ acc ∨ (x ∈ parseUnionId u ∧ x ≠ m ∧ x ≠ ("0") ∧
        (memberFind d x).isSome = true) := by
  rw [foldl_mem_iff _
    (fun p x =>
      ¬ (p = m ∨ p = ("0") ∨ (memberFind d p).isNone = true) ∧ x = p)
    (fun acc p x => by
      by_cases hc : p = m ∨ p = ("0") ∨ (memberFind d p).isNone = true
      · rw [if_pos hc]
        tauto
      · rw [if_neg hc, mem_pushIfAbsent]
        tauto) (parseUnionId u) acc x]
  constructor
  · rintro (h | ⟨p, hp, hnc, rfl⟩)
    · exact Or.inl h
    · refine Or.inr ⟨hp, fun he => hnc (Or.inl he),
        fun he => hnc (Or.inr (Or.inl he)), ?_⟩
      rcases hq : memberFind d x with _ | v
      · exact absurd (Or.inr (Or.inr (by rw [hq]; rfl))) hnc
      · rfl
  · rintro (h | ⟨hp, h1, h2, h3⟩)
    · exact Or.inl h
    · refine Or.inr ⟨x, hp, ?_, rfl⟩
      rintro (hc | hc | hc)
      · exact h1 hc
      · exact h2 hc
      · rcases hq : memberFind d x with _ | v
        · rw [hq] at h3; simp at h3
        · rw [hq] at hc; simp at hc

theorem mem_addSpousesFor (d : FamilyData) (m : String) (acc : List String)
    (x : String) :
    x ∈ addSpousesFor d acc m ↔
      x ∈ acc ∨ ∃ u ∈ getUnionsForMember d m,
        x ∈ parseUnionId u ∧ x ≠ m ∧ x ≠ ("0") ∧
        (memberFind d x).isSome = true := by
  unfold addSpousesFor
  exact foldl_mem_iff _
    (fun u x => x ∈ parseUnionId u ∧ x ≠ m ∧ x ≠ ("0") ∧
      (memberFind d x).isSome = true)
    (fun acc u x => mem_partnerFold d m u acc x)
    (getUnionsForMember d m) acc x

theorem mem_assignSpouses (d : FamilyData) (members : List String)
    (x : String) :
    x ∈ assignSpouses d members ↔
      x ∈ members ∨ ∃ m ∈ members, ∃ u ∈ getUnionsForMember d m,
        x ∈ parseUnionId u ∧ x ≠ m ∧ x ≠ ("0") ∧
        (memberFind d x).isSome = true := by
  unfold assignSpouses
  exact foldl_mem_iff (addSpousesFor d)
    (fun m x => ∃ u ∈ getUnionsForMember d m,
      x ∈ parseUnionId u ∧ x ≠ m ∧ x ≠ ("0") ∧
      (memberFind d x).isSome = true)
    (fun acc m x => mem_addSpousesFor d m acc x)
    members members x

/-- C10: spouse assignment adds exactly the ids captured by parsing union
node identifiers (`u_a_b`, with the `mem_` prefix supplied when absent) of
unions the member links into, skipping the member itself, the placeholder
zero id, and ids absent from the member table; consequently a person who
never appears in any union id parse — for instance one linked to a union
only by a `person → union` edge whose id does not name them — is never
added as a spouse. -/
theorem C10_spouse_assignment_via_parse (d : FamilyData)
    (members : List String) (x : String) :
    (x ∈ assignSpouses d members ↔
      x ∈ members ∨ ∃ m ∈ members, ∃ u ∈ getUnionsForMember d m,
        x ∈ parseUnionId u ∧ x ≠ m ∧ x ≠ ("0") ∧
        (memberFind d x).isSome = true) ∧
    (x ∉ members → (∀ u, x ∉ parseUnionId u) →
      x ∉ assignSpouses d members) := by
  refine ⟨mem_assignSpouses d members x, fun hnm hnp h => ?_⟩
  rcases (mem_assignSpouses d members x).mp h with h1 | ⟨m, hm, u, hu, hp, h2⟩
  · exact hnm h1
  · exact hnp u hp

/-- Witness for C10 at the stray-link scenario: `mem_9` has a
`person → union` edge into `u_1_2`, yet is never assigned as a spouse
because the union id parses to `mem_1` and `mem_2` only. -/
theorem C10_spouse_assignment_via_parse_witness :
    ("mem_9", "u_1_2") ∈ strayLinkData.links ∧
    ("mem_9") ∉ assignSpouses strayLinkData ["mem_1"] :=
  ⟨by decide, fun h =>
    absurd ((C10_spouse_assignment_via_parse strayLinkData
        ["mem_1"] ("mem_9")).1.mp h)
      (by decide)⟩

end Aile
